import Mathlib

/-!
Verification of the angelina embedded property-graph database.

Shallow embedding of the Rust sources:
  * `src/datamodel/buffer.rs`   — byte buffer (big-endian integers, 0x00-terminated strings)
  * `src/datamodel/*.rs`        — key/value codecs for schema and instance objects
  * `src/handlers/sled_engine.rs` — ordered KV adapter with atomic `increment`
  * `src/handlers/{schema,vertex,edge}_handler.rs` — CRUD handlers
  * `src/execution/{scope,planner}.rs` and `src/parser/ast.rs` — WHERE decomposition
    and physical-plan lowering
  * `src/execution/executor.rs` — statement dispatch

Rust byte slices are `List Nat` (each entry a byte value), `u64` values are `Nat`
with explicit `< 2 ^ 64` bounds where the machine width matters, and every
panicking code path is modelled by `Option` (`none` = panic).
-/

namespace Angelina

/-- Modelled from the spec: `datamodel/constants.rs` is not among the sources;
§4.1 of the spec fixes the string terminator byte as `0x00`. -/
def STRING_TERM : Nat := 0

/-- `Buffer::put_u64` writes the eight big-endian bytes of a `u64`
(`datamodel/buffer.rs`). -/
def be8 (n : Nat) : List Nat :=
  [n / 2 ^ 56 % 256, n / 2 ^ 48 % 256, n / 2 ^ 40 % 256, n / 2 ^ 32 % 256,
   n / 2 ^ 24 % 256, n / 2 ^ 16 % 256, n / 2 ^ 8 % 256, n % 256]

/-- `Buffer::get_u64`: consume eight bytes, big-endian.  `none` models the
panic of reading past the end of the buffer. -/
def readU64 : List Nat → Option (Nat × List Nat)
  | b0 :: b1 :: b2 :: b3 :: b4 :: b5 :: b6 :: b7 :: rest =>
      some (((((((b0 * 256 + b1) * 256 + b2) * 256 + b3) * 256 + b4) * 256 + b5) * 256
                + b6) * 256 + b7, rest)
  | _ => none

/-- `Buffer::get_string_raw`: consume bytes up to (and including) the
terminator; `none` models the panic when no terminator remains. -/
def getString : List Nat → Option (List Nat × List Nat)
  | [] => none
  | b :: rest =>
      if b = STRING_TERM then some ([], rest)
      else
        match getString rest with
        | some (s, r) => some (b :: s, r)
        | none => none

/-- `Buffer::put_string`: raw bytes followed by the terminator. -/
def putString (s : List Nat) : List Nat := s ++ [STRING_TERM]

theorem readU64_be8_append (n : Nat) (h : n < 2 ^ 64) (r : List Nat) :
    readU64 (be8 n ++ r) = some (n, r) := by
  simp only [be8, readU64, List.cons_append, List.nil_append, Option.some.injEq,
    Prod.mk.injEq]
  exact ⟨by omega, trivial⟩

theorem getString_putString_append (s : List Nat) (hs : STRING_TERM ∉ s) (r : List Nat) :
    getString (putString s ++ r) = some (s, r) := by
  induction s with
  | nil => simp [putString, getString]
  | cons b t ih =>
      simp only [List.mem_cons, not_or] at hs
      have hb : ¬(b = STRING_TERM) := fun hb => hs.1 hb.symm
      simp only [putString, List.cons_append, getString, if_neg hb]
      rw [show ((t.append [STRING_TERM]).append r) = putString t ++ r from by
        simp [putString]]
      rw [ih hs.2]

theorem readU64_length {bs r : List Nat} {n : Nat} (h : readU64 bs = some (n, r)) :
    bs.length = r.length + 8 := by
  match bs with
  | b0 :: b1 :: b2 :: b3 :: b4 :: b5 :: b6 :: b7 :: rest =>
      simp only [readU64, Option.some.injEq, Prod.mk.injEq] at h
      simp [← h.2]
  | [] | [_] | [_, _] | [_, _, _] | [_, _, _, _] | [_, _, _, _, _]
  | [_, _, _, _, _, _] | [_, _, _, _, _, _, _] => simp [readU64] at h

theorem getString_length {bs r s : List Nat} (h : getString bs = some (s, r)) :
    r.length < bs.length := by
  induction bs generalizing s r with
  | nil => simp [getString] at h
  | cons b t ih =>
      simp only [getString] at h
      by_cases hb : b = STRING_TERM
      · simp only [if_pos hb, Option.some.injEq, Prod.mk.injEq] at h
        simp [← h.2]
      · simp only [if_neg hb] at h
        match hrec : getString t with
        | some (s1, r1) =>
            rw [hrec] at h
            simp only [Option.some.injEq, Prod.mk.injEq] at h
            have := ih hrec
            simp only [← h.2, List.length_cons]
            omega
        | none => rw [hrec] at h; exact absurd h (by simp)

/-! ## Key/value codecs (`src/datamodel/*.rs`)

Schema kind discriminators (`SchemaType`): 0x01 VertexLabel, 0x02 EdgeLabel,
0x03 PropertyKey; element discriminators (`ElementType`): 0x04 Vertex,
0x05 InEdge, 0x06 OutEdge, 0x07 MetaProperty. -/

/-- `EdgeMultiplicity` (`datamodel/base.rs`). -/
inductive EdgeMultiplicity where
  | one2One | one2Many | many2One | many2ManySimple | many2ManyMulti
  deriving DecidableEq, Repr

/-- `EdgeMultiplicity as u8` (discriminants start at 0x01). -/
def EdgeMultiplicity.toByte : EdgeMultiplicity → Nat
  | .one2One => 0x01
  | .one2Many => 0x02
  | .many2One => 0x03
  | .many2ManySimple => 0x04
  | .many2ManyMulti => 0x05

/-- `impl From<u8> for EdgeMultiplicity`; `none` models the panic on an
unknown discriminant. -/
def EdgeMultiplicity.ofByte : Nat → Option EdgeMultiplicity
  | 0x01 => some .one2One
  | 0x02 => some .one2Many
  | 0x03 => some .many2One
  | 0x04 => some .many2ManySimple
  | 0x05 => some .many2ManyMulti
  | _ => none

/-- `Cardinality` (`datamodel/base.rs`). -/
inductive Cardinality where
  | single | list | set
  deriving DecidableEq, Repr

def Cardinality.toByte : Cardinality → Nat
  | .single => 0x01
  | .list => 0x02
  | .set => 0x03

def Cardinality.ofByte : Nat → Option Cardinality
  | 0x01 => some .single
  | 0x02 => some .list
  | 0x03 => some .set
  | _ => none

/-- `EdgeDirection` (`datamodel/base.rs`). -/
inductive EdgeDirection where
  | out | inn
  deriving DecidableEq, Repr

/-- `VertexLabel` (`datamodel/vertex_label.rs`); the name is the raw byte
content of the Rust `String`. -/
structure VertexLabel where
  id : Nat
  name : List Nat
  deriving DecidableEq, Repr

def VertexLabel.build_key (id : Nat) : List Nat := 0x01 :: be8 id

def VertexLabel.serialize (x : VertexLabel) : List Nat × List Nat :=
  (VertexLabel.build_key x.id, putString x.name)

def VertexLabel.deserialize_value (id : Nat) (value : List Nat) : Option VertexLabel :=
  match getString value with
  | some (name, _) => some ⟨id, name⟩
  | none => none

def VertexLabel.deserialize (key value : List Nat) : Option VertexLabel :=
  match key with
  | _ :: krest =>
      match readU64 krest with
      | some (id, _) => VertexLabel.deserialize_value id value
      | none => none
  | [] => none

/-- `EdgeLabel` (`datamodel/edge_label.rs`). -/
structure EdgeLabel where
  id : Nat
  name : List Nat
  multiplicity : EdgeMultiplicity
  deriving DecidableEq, Repr

def EdgeLabel.build_key (id : Nat) : List Nat := 0x02 :: be8 id

def EdgeLabel.serialize (x : EdgeLabel) : List Nat × List Nat :=
  (EdgeLabel.build_key x.id, putString x.name ++ [x.multiplicity.toByte])

def EdgeLabel.deserialize_value (id : Nat) (value : List Nat) : Option EdgeLabel :=
  match getString value with
  | some (name, rest) =>
      match rest with
      | m :: _ =>
          match EdgeMultiplicity.ofByte m with
          | some mult => some ⟨id, name, mult⟩
          | none => none
      | [] => none
  | none => none

def EdgeLabel.deserialize (key value : List Nat) : Option EdgeLabel :=
  match key with
  | _ :: krest =>
      match readU64 krest with
      | some (id, _) => EdgeLabel.deserialize_value id value
      | none => none
  | [] => none

/-- `PropertyKey` (`datamodel/property_key.rs`). -/
structure PropertyKey where
  id : Nat
  name : List Nat
  cardinality : Cardinality
  deriving DecidableEq, Repr

def PropertyKey.build_key (id : Nat) : List Nat := 0x03 :: be8 id

def PropertyKey.serialize (x : PropertyKey) : List Nat × List Nat :=
  (PropertyKey.build_key x.id, putString x.name ++ [x.cardinality.toByte])

def PropertyKey.deserialize_value (id : Nat) (value : List Nat) : Option PropertyKey :=
  match getString value with
  | some (name, rest) =>
      match rest with
      | c :: _ =>
          match Cardinality.ofByte c with
          | some card => some ⟨id, name, card⟩
          | none => none
      | [] => none
  | none => none

def PropertyKey.deserialize (key value : List Nat) : Option PropertyKey :=
  match key with
  | _ :: krest =>
      match readU64 krest with
      | some (id, _) => PropertyKey.deserialize_value id value
      | none => none
  | [] => none

/-- `Vertex` (`datamodel/vertex.rs`); `id` is the raw byte content of the
vertex-id string, `properties` the opaque properties blob. -/
structure Vertex where
  id : List Nat
  label : Nat
  properties : List Nat
  deriving DecidableEq, Repr

def Vertex.build_key (id : List Nat) : List Nat := 0x04 :: putString id

def Vertex.serialize (v : Vertex) : List Nat × List Nat :=
  (Vertex.build_key v.id, be8 v.label ++ v.properties)

def Vertex.deserialize_value (id : List Nat) (value : List Nat) : Option Vertex :=
  match readU64 value with
  | some (label, props) => some ⟨id, label, props⟩
  | none => none

def Vertex.deserialize (key value : List Nat) : Option Vertex :=
  match key with
  | _ :: krest =>
      match getString krest with
      | some (id, _) => Vertex.deserialize_value id value
      | none => none
  | [] => none

/-- `Edge` (`datamodel/edge.rs`). -/
structure Edge where
  src_vertex_id : List Nat
  dst_vertex_id : List Nat
  edge_id : Nat
  label : Nat
  properties : List Nat
  deriving DecidableEq, Repr

/-- `Edge::build_key`: OUT rows start 0x06 and put src first; IN rows start
0x05 and put dst first. -/
def Edge.build_key (src_id dst_id : List Nat) (label edge_id : Nat)
    (direction : EdgeDirection) : List Nat :=
  match direction with
  | .out => 0x06 :: (putString src_id ++ be8 label ++ putString dst_id ++ be8 edge_id)
  | .inn => 0x05 :: (putString dst_id ++ be8 label ++ putString src_id ++ be8 edge_id)

def Edge.generate_key (e : Edge) (direction : EdgeDirection) : List Nat :=
  Edge.build_key e.src_vertex_id e.dst_vertex_id e.label e.edge_id direction

/-- `Edge::serialize`: the value is just the properties blob. -/
def Edge.serialize (e : Edge) (direction : EdgeDirection) : List Nat × List Nat :=
  (e.generate_key direction, e.properties)

def Edge.deserialize (key value : List Nat) : Option Edge :=
  match key with
  | element_type :: krest =>
      match getString krest with
      | some (first_id, r1) =>
          match readU64 r1 with
          | some (edge_label, r2) =>
              match getString r2 with
              | some (second_id, r3) =>
                  match readU64 r3 with
                  | some (edge_id, _) =>
                      if element_type = 0x06 then
                        some ⟨first_id, second_id, edge_id, edge_label, value⟩
                      else if element_type = 0x05 then
                        some ⟨second_id, first_id, edge_id, edge_label, value⟩
                      else none
                  | none => none
              | none => none
          | none => none
      | none => none
  | [] => none

/-! ## Round-trip lemmas for the codecs -/

theorem vertexLabel_round_trip (x : VertexLabel) (hid : x.id < 2 ^ 64)
    (hn : STRING_TERM ∉ x.name) :
    VertexLabel.deserialize x.serialize.1 x.serialize.2 = some x := by
  obtain ⟨id, name⟩ := x
  simp only [VertexLabel.serialize, VertexLabel.build_key, VertexLabel.deserialize]
  rw [show be8 id = be8 id ++ [] from by simp, readU64_be8_append _ hid]
  simp only [VertexLabel.deserialize_value]
  rw [show putString name = putString name ++ [] from by simp,
    getString_putString_append _ hn]

theorem edgeLabel_round_trip (x : EdgeLabel) (hid : x.id < 2 ^ 64)
    (hn : STRING_TERM ∉ x.name) :
    EdgeLabel.deserialize x.serialize.1 x.serialize.2 = some x := by
  obtain ⟨id, name, mult⟩ := x
  simp only [EdgeLabel.serialize, EdgeLabel.build_key, EdgeLabel.deserialize]
  rw [show be8 id = be8 id ++ [] from by simp, readU64_be8_append _ hid]
  simp only [EdgeLabel.deserialize_value]
  rw [getString_putString_append _ hn]
  cases mult <;> rfl

theorem propertyKey_round_trip (x : PropertyKey) (hid : x.id < 2 ^ 64)
    (hn : STRING_TERM ∉ x.name) :
    PropertyKey.deserialize x.serialize.1 x.serialize.2 = some x := by
  obtain ⟨id, name, card⟩ := x
  simp only [PropertyKey.serialize, PropertyKey.build_key, PropertyKey.deserialize]
  rw [show be8 id = be8 id ++ [] from by simp, readU64_be8_append _ hid]
  simp only [PropertyKey.deserialize_value]
  rw [getString_putString_append _ hn]
  cases card <;> rfl

theorem vertex_round_trip (v : Vertex) (hl : v.label < 2 ^ 64)
    (hid : STRING_TERM ∉ v.id) :
    Vertex.deserialize v.serialize.1 v.serialize.2 = some v := by
  obtain ⟨id, label, props⟩ := v
  simp only [Vertex.serialize, Vertex.build_key, Vertex.deserialize]
  rw [show putString id = putString id ++ [] from by simp,
    getString_putString_append _ hid]
  simp only [Vertex.deserialize_value]
  rw [readU64_be8_append _ hl]

theorem readU64_be8 (n : Nat) (h : n < 2 ^ 64) : readU64 (be8 n) = some (n, []) := by
  have := readU64_be8_append n h []
  simpa using this

theorem edge_round_trip (e : Edge) (hl : e.label < 2 ^ 64) (hi : e.edge_id < 2 ^ 64)
    (hs : STRING_TERM ∉ e.src_vertex_id) (hd : STRING_TERM ∉ e.dst_vertex_id)
    (dir : EdgeDirection) :
    Edge.deserialize (e.serialize dir).1 (e.serialize dir).2 = some e := by
  obtain ⟨src, dst, eid, label, props⟩ := e
  simp only at hl hi hs hd
  cases dir
  · simp only [Edge.serialize, Edge.generate_key, Edge.build_key, Edge.deserialize,
      List.append_assoc, getString_putString_append _ hs, readU64_be8_append _ hl,
      getString_putString_append _ hd, readU64_be8 _ hi]
    rfl
  · simp only [Edge.serialize, Edge.generate_key, Edge.build_key, Edge.deserialize,
      List.append_assoc, getString_putString_append _ hd, readU64_be8_append _ hl,
      getString_putString_append _ hs, readU64_be8 _ hi]
    rfl

/-- Claim C4: for every entity (VertexLabel, EdgeLabel, PropertyKey, Vertex,
Edge in either direction) whose u64 fields are in range and whose string
fields contain no 0x00 terminator byte, deserializing the (key, value) pair
produced by serialize yields the original entity.  (String fields are
modelled as their raw UTF-8 byte content, for which
`String::from_utf8(s.as_bytes())` is the identity, so the valid-UTF-8 side
condition of the claim is absorbed by the representation.) -/
theorem serde_round_trip_spec
    (vl : VertexLabel) (el : EdgeLabel) (pk : PropertyKey) (v : Vertex) (e : Edge)
    (hvl : vl.id < 2 ^ 64) (hvln : STRING_TERM ∉ vl.name)
    (hel : el.id < 2 ^ 64) (heln : STRING_TERM ∉ el.name)
    (hpk : pk.id < 2 ^ 64) (hpkn : STRING_TERM ∉ pk.name)
    (hv : v.label < 2 ^ 64) (hvid : STRING_TERM ∉ v.id)
    (hele : e.label < 2 ^ 64) (heid : e.edge_id < 2 ^ 64)
    (hes : STRING_TERM ∉ e.src_vertex_id) (hed : STRING_TERM ∉ e.dst_vertex_id) :
    VertexLabel.deserialize vl.serialize.1 vl.serialize.2 = some vl ∧
    EdgeLabel.deserialize el.serialize.1 el.serialize.2 = some el ∧
    PropertyKey.deserialize pk.serialize.1 pk.serialize.2 = some pk ∧
    Vertex.deserialize v.serialize.1 v.serialize.2 = some v ∧
    Edge.deserialize (e.serialize .out).1 (e.serialize .out).2 = some e ∧
    Edge.deserialize (e.serialize .inn).1 (e.serialize .inn).2 = some e :=
  ⟨vertexLabel_round_trip vl hvl hvln, edgeLabel_round_trip el hel heln,
   propertyKey_round_trip pk hpk hpkn, vertex_round_trip v hv hvid,
   edge_round_trip e hele heid hes hed .out, edge_round_trip e hele heid hes hed .inn⟩

/-- Witness for C4 at concrete entities. -/
theorem serde_round_trip_witness :
    VertexLabel.deserialize (VertexLabel.serialize ⟨1, [109, 111, 99, 107]⟩).1
        (VertexLabel.serialize ⟨1, [109, 111, 99, 107]⟩).2 =
      some ⟨1, [109, 111, 99, 107]⟩ ∧
    EdgeLabel.deserialize (EdgeLabel.serialize ⟨2, [107], .one2One⟩).1
        (EdgeLabel.serialize ⟨2, [107], .one2One⟩).2 = some ⟨2, [107], .one2One⟩ ∧
    PropertyKey.deserialize (PropertyKey.serialize ⟨3, [110], .single⟩).1
        (PropertyKey.serialize ⟨3, [110], .single⟩).2 = some ⟨3, [110], .single⟩ ∧
    Vertex.deserialize (Vertex.serialize ⟨[117, 49], 1, [7, 7]⟩).1
        (Vertex.serialize ⟨[117, 49], 1, [7, 7]⟩).2 = some ⟨[117, 49], 1, [7, 7]⟩ ∧
    Edge.deserialize (Edge.serialize ⟨[117, 49], [117, 50], 0, 3, []⟩ .out).1
        (Edge.serialize ⟨[117, 49], [117, 50], 0, 3, []⟩ .out).2 =
      some ⟨[117, 49], [117, 50], 0, 3, []⟩ ∧
    Edge.deserialize (Edge.serialize ⟨[117, 49], [117, 50], 0, 3, []⟩ .inn).1
        (Edge.serialize ⟨[117, 49], [117, 50], 0, 3, []⟩ .inn).2 =
      some ⟨[117, 49], [117, 50], 0, 3, []⟩ :=
  serde_round_trip_spec ⟨1, [109, 111, 99, 107]⟩ ⟨2, [107], .one2One⟩
    ⟨3, [110], .single⟩ ⟨[117, 49], 1, [7, 7]⟩ ⟨[117, 49], [117, 50], 0, 3, []⟩
    (by norm_num) (by decide) (by norm_num) (by decide) (by norm_num) (by decide)
    (by norm_num) (by decide) (by norm_num) (by norm_num) (by decide) (by decide)

/-! ## Vertex key order (claim C5) -/

theorem lex_append_term {a b : List Nat} (h : List.Lex (· < ·) a b)
    (hb : STRING_TERM ∉ b) :
    List.Lex (· < ·) (putString a) (putString b) := by
  induction h with
  | nil =>
      rename_i hd tl
      simp only [List.mem_cons, not_or] at hb
      simp only [putString, List.nil_append, List.cons_append]
      refine List.Lex.rel ?_
      have h0 : STRING_TERM ≠ hd := hb.1
      simp only [STRING_TERM] at h0 ⊢
      omega
  | rel hab =>
      simp only [putString, List.cons_append]
      exact List.Lex.rel hab
  | cons _ ih =>
      simp only [List.mem_cons, not_or] at hb
      simp only [putString, List.cons_append]
      exact List.Lex.cons (ih hb.2)

/-- Claim C5: for vertex IDs a and b containing no 0x00 byte, if a < b in
lexicographic byte order then `Vertex::build_key(a) < Vertex::build_key(b)`
in lexicographic byte order. -/
theorem vertex_key_order_spec (a b : List Nat) (_ha : STRING_TERM ∉ a)
    (hb : STRING_TERM ∉ b) (hlt : List.Lex (· < ·) a b) :
    List.Lex (· < ·) (Vertex.build_key a) (Vertex.build_key b) := by
  simp only [Vertex.build_key]
  exact List.Lex.cons (lex_append_term hlt hb)

/-- Witness for C5 at a = "u1", b = "u2". -/
theorem vertex_key_order_witness :
    List.Lex (· < ·) (Vertex.build_key [117, 49]) (Vertex.build_key [117, 50]) :=
  vertex_key_order_spec [117, 49] [117, 50] (by decide) (by decide)
    (List.Lex.cons (List.Lex.rel (by norm_num)))

/-! ## Properties blob (`src/datamodel/property.rs`)

A properties blob is a concatenation of records
`key_id:u64 ‖ value_len:u64 ‖ prop_id:u64 ‖ value ‖ 0x00`
(this is exactly what `Properties::add_property` appends). -/

structure PropRecord where
  key_id : Nat
  value_len : Nat
  prop_id : Nat
  value : List Nat
  deriving DecidableEq, Repr

/-- The bytes `Properties::add_property` appends for one record. -/
def encodeRecord (r : PropRecord) : List Nat :=
  be8 r.key_id ++ be8 r.value_len ++ be8 r.prop_id ++ putString r.value

def encodeRecords : List PropRecord → List Nat
  | [] => []
  | r :: rs => encodeRecord r ++ encodeRecords rs

/-- `Properties::remove_property`: scan the blob record by record, dropping a
record iff its `key_id` equals `key` and (`prop_id` list empty or the record's
prop id is listed); re-emit every other record unchanged.  `none` models the
panic on a malformed blob. -/
def remove_property (key : Nat) (prop_id : List Nat) (data : List Nat) :
    Option (List Nat) :=
  if data.isEmpty then some []
  else
    match h1 : readU64 data with
    | none => none
    | some (key_id, r1) =>
        match h2 : readU64 r1 with
        | none => none
        | some (value_len, r2) =>
            match h3 : readU64 r2 with
            | none => none
            | some (pid, r3) =>
                match h4 : getString r3 with
                | none => none
                | some (value, r4) =>
                    match remove_property key prop_id r4 with
                    | none => none
                    | some tail =>
                        if key = key_id ∧ (prop_id = [] ∨ pid ∈ prop_id) then
                          some tail
                        else
                          some (be8 key_id ++ be8 value_len ++ be8 pid ++
                            putString value ++ tail)
  termination_by data.length
  decreasing_by
    have l1 := readU64_length h1
    have l2 := readU64_length h2
    have l3 := readU64_length h3
    have l4 := getString_length h4
    omega

theorem encodeRecord_ne_nil (r : PropRecord) (x : List Nat) :
    (encodeRecord r ++ x).isEmpty = false := by
  simp [encodeRecord, be8]

/-- A record is kept (re-emitted) by `remove_property key prop_id` iff this
predicate holds. -/
def keptBy (key : Nat) (prop_id : List Nat) (r : PropRecord) : Prop :=
  ¬(key = r.key_id ∧ (prop_id = [] ∨ r.prop_id ∈ prop_id))

instance (key : Nat) (prop_id : List Nat) (r : PropRecord) :
    Decidable (keptBy key prop_id r) := by unfold keptBy; infer_instance

theorem remove_property_encode (key : Nat) (P : List Nat) (rs : List PropRecord)
    (hwf : ∀ r ∈ rs, r.key_id < 2 ^ 64 ∧ r.value_len < 2 ^ 64 ∧
      r.prop_id < 2 ^ 64 ∧ STRING_TERM ∉ r.value) :
    remove_property key P (encodeRecords rs) =
      some (encodeRecords (rs.filter (fun r => keptBy key P r))) := by
  induction rs with
  | nil => simp [encodeRecords, remove_property]
  | cons r rs ih =>
      obtain ⟨hk, hv, hp, hval⟩ := hwf r (by simp)
      have hrest : ∀ x ∈ rs, x.key_id < 2 ^ 64 ∧ x.value_len < 2 ^ 64 ∧
          x.prop_id < 2 ^ 64 ∧ STRING_TERM ∉ x.value :=
        fun x hx => hwf x (by simp [hx])
      rw [show encodeRecords (r :: rs) = encodeRecord r ++ encodeRecords rs from rfl]
      rw [remove_property]
      rw [if_neg (by simp [encodeRecord_ne_nil])]
      rw [show encodeRecord r ++ encodeRecords rs =
        be8 r.key_id ++ (be8 r.value_len ++ (be8 r.prop_id ++
          (putString r.value ++ encodeRecords rs))) from by
        simp [encodeRecord, List.append_assoc]]
      rw [readU64_be8_append _ hk]
      dsimp only
      rw [readU64_be8_append _ hv]
      dsimp only
      rw [readU64_be8_append _ hp]
      dsimp only
      rw [getString_putString_append _ hval]
      dsimp only
      rw [ih hrest]
      dsimp only
      rw [List.filter_cons]
      by_cases hcond : key = r.key_id ∧ (P = [] ∨ r.prop_id ∈ P)
      · rw [if_pos hcond]
        have hdec : decide (keptBy key P r) = false :=
          decide_eq_false (by simp only [keptBy, not_not]; exact hcond)
        rw [hdec, if_neg (by simp)]
      · rw [if_neg hcond]
        have hdec : decide (keptBy key P r) = true := decide_eq_true hcond
        rw [hdec, if_pos rfl]
        simp [encodeRecords, encodeRecord, List.append_assoc]

/-- Claim C6: for every well-formed properties blob, key `k` and prop-id list
`P`, `remove_property k P` with `P` empty removes exactly the records whose
`key_id` equals `k`; with `P` non-empty it removes exactly the records whose
`key_id` equals `k` and whose `prop_id` is in `P`; all other records are
preserved unchanged and in their original order. -/
theorem remove_property_spec (key : Nat) (P : List Nat) (rs : List PropRecord)
    (hwf : ∀ r ∈ rs, r.key_id < 2 ^ 64 ∧ r.value_len < 2 ^ 64 ∧
      r.prop_id < 2 ^ 64 ∧ STRING_TERM ∉ r.value) :
    (P = [] →
      remove_property key P (encodeRecords rs) =
        some (encodeRecords (rs.filter (fun r => r.key_id ≠ key)))) ∧
    (P ≠ [] →
      remove_property key P (encodeRecords rs) =
        some (encodeRecords
          (rs.filter (fun r => ¬(r.key_id = key ∧ r.prop_id ∈ P))))) := by
  constructor
  · intro hP
    rw [remove_property_encode key P rs hwf]
    subst hP
    congr 1
    congr 1
    apply List.filter_congr
    intro r _
    simp [keptBy, eq_comm]
  · intro hP
    rw [remove_property_encode key P rs hwf]
    congr 1
    congr 1
    apply List.filter_congr
    intro r _
    simp only [keptBy, hP, false_or, decide_eq_decide]
    constructor
    · intro h hc; exact h ⟨hc.1.symm, hc.2⟩
    · intro h hc; exact h ⟨hc.1.symm, hc.2⟩

/-- Witness for C6: blob with records (key 12, pid 99), (key 13, pid 100),
(key 12, pid 101); removing key 12 with empty list drops both key-12 records,
removing key 12 with list [101] drops only the second. -/
theorem remove_property_witness :
    remove_property 12 []
        (encodeRecords [⟨12, 1, 99, [97]⟩, ⟨13, 1, 100, [98]⟩, ⟨12, 1, 101, [99]⟩]) =
      some (encodeRecords [⟨13, 1, 100, [98]⟩]) ∧
    remove_property 12 [101]
        (encodeRecords [⟨12, 1, 99, [97]⟩, ⟨13, 1, 100, [98]⟩, ⟨12, 1, 101, [99]⟩]) =
      some (encodeRecords [⟨12, 1, 99, [97]⟩, ⟨13, 1, 100, [98]⟩]) := by
  have h1 := (remove_property_spec 12 []
    [⟨12, 1, 99, [97]⟩, ⟨13, 1, 100, [98]⟩, ⟨12, 1, 101, [99]⟩] (by decide)).1 rfl
  have h2 := (remove_property_spec 12 [101]
    [⟨12, 1, 99, [97]⟩, ⟨13, 1, 100, [98]⟩, ⟨12, 1, 101, [99]⟩] (by decide)).2
    (by decide)
  constructor
  · rw [h1]; decide
  · rw [h2]; decide

/-! ## KV engine (`src/handlers/sled_engine.rs`)

A tree is an association list from key bytes to value bytes with unique keys
(`insert` replaces in place); sled enumerates keys in lexicographic order, so
`scan_prefix` sorts the matching rows by key. -/

/-- Lexicographic byte order on keys (the order of the sled store). -/
def keyLt : List Nat → List Nat → Bool
  | [], [] => false
  | [], _ :: _ => true
  | _ :: _, [] => false
  | a :: as, b :: bs => if a < b then true else if b < a then false else keyLt as bs

abbrev Tree := List (List Nat × List Nat)

def treeGet : Tree → List Nat → Option (List Nat)
  | [], _ => none
  | (k, v) :: rest, key => if key = k then some v else treeGet rest key

def treeInsert : Tree → List Nat → List Nat → Tree
  | [], key, value => [(key, value)]
  | (k, v) :: rest, key, value =>
      if key = k then (key, value) :: rest
      else (k, v) :: treeInsert rest key value

def treeRemove : Tree → List Nat → Tree
  | [], _ => []
  | (k, v) :: rest, key => if key = k then rest else (k, v) :: treeRemove rest key

/-- Insertion sort of rows by key, modelling sled's key-ordered iteration. -/
def sortedInsertRow (row : List Nat × List Nat) : Tree → Tree
  | [] => [row]
  | r :: rest =>
      if keyLt row.1 r.1 then row :: r :: rest else r :: sortedInsertRow row rest

def sortRows : Tree → Tree
  | [] => []
  | r :: rest => sortedInsertRow r (sortRows rest)

/-- `Tree::scan_prefix`: all rows whose key starts with `p`, in key order. -/
def prefixScan (t : Tree) (p : List Nat) : Tree :=
  (sortRows t).filter (fun kv => p.isPrefixOf kv.1)

/-- The engine maps tree names to trees (`Db::open_tree`; a missing tree is
empty). -/
abbrev Engine := List (String × Tree)

def open_tree : Engine → String → Tree
  | [], _ => []
  | (n, t) :: rest, name => if name = n then t else open_tree rest name

def engineGet (e : Engine) (name : String) (key : List Nat) : Option (List Nat) :=
  treeGet (open_tree e name) key

def engineUpdate : Engine → String → (Tree → Tree) → Engine
  | [], name, f => [(name, f [])]
  | (n, t) :: rest, name, f =>
      if name = n then (n, f t) :: rest else (n, t) :: engineUpdate rest name f

def engineInsert (e : Engine) (name : String) (key value : List Nat) : Engine :=
  engineUpdate e name (fun t => treeInsert t key value)

def engineRemove (e : Engine) (name : String) (key : List Nat) : Engine :=
  engineUpdate e name (fun t => treeRemove t key)

/-- ASCII bytes of a Rust string literal (`str::as_bytes`). -/
def ascii (s : String) : List Nat := s.toList.map Char.toNat

/-- `SledEngine::bytes_to_long`: exactly eight big-endian bytes; `none`
models the panic of `try_into` on any other length. -/
def bytes_to_long (bs : List Nat) : Option Nat :=
  match readU64 bs with
  | some (n, []) => some n
  | _ => none

/-- `SledEngine::increment`: atomic update-and-fetch; a missing counter
becomes 0, an existing value is decoded, incremented and stored; the
post-increment value is returned.  `none` models the panics (malformed
counter bytes, u64 overflow of `number + 1`). -/
def increment (e : Engine) (tree_name : String) (key : List Nat) :
    Option (Nat × Engine) :=
  match engineGet e tree_name key with
  | none => some (0, engineInsert e tree_name key (be8 0))
  | some bytes =>
      match bytes_to_long bytes with
      | none => none
      | some v =>
          if v + 1 < 2 ^ 64 then
            some (v + 1, engineInsert e tree_name key (be8 (v + 1)))
          else none

def freshEngine : Engine := []

theorem bytes_to_long_be8 (m : Nat) (h : m < 2 ^ 64) :
    bytes_to_long (be8 m) = some m := by
  simp [bytes_to_long, readU64_be8 m h]

theorem treeGet_insert (t : Tree) (k v k' : List Nat) :
    treeGet (treeInsert t k v) k' = if k' = k then some v else treeGet t k' := by
  induction t with
  | nil => simp [treeInsert, treeGet]
  | cons r rest ih =>
      obtain ⟨k0, v0⟩ := r
      simp only [treeInsert]
      by_cases hk : k = k0
      · subst hk
        simp only [if_pos rfl, treeGet]
        by_cases h : k' = k <;> simp [h]
      · rw [if_neg hk]
        simp only [treeGet]
        by_cases h : k' = k0
        · subst h
          have hne : ¬(k' = k) := fun hh => hk hh.symm
          rw [if_pos rfl, if_neg hne, if_pos rfl]
        · rw [if_neg h, ih]
          by_cases hkk : k' = k
          · rw [if_pos hkk, if_pos hkk]
          · rw [if_neg hkk, if_neg hkk, if_neg h]

theorem engineGet_insert (e : Engine) (n : String) (k v : List Nat) (n' : String)
    (k' : List Nat) :
    engineGet (engineInsert e n k v) n' k' =
      if n' = n ∧ k' = k then some v else engineGet e n' k' := by
  induction e with
  | nil =>
      by_cases hn : n' = n
      · subst hn
        by_cases hk : k' = k <;>
          simp [engineGet, engineInsert, engineUpdate, open_tree, treeGet, hk]
      · simp [engineGet, engineInsert, engineUpdate, open_tree, treeGet, hn]
  | cons r rest ih =>
      obtain ⟨n0, t0⟩ := r
      simp only [engineInsert, engineUpdate]
      by_cases h0 : n = n0
      · subst h0
        rw [if_pos rfl]
        by_cases hn : n' = n
        · subst hn
          simp [engineGet, open_tree, treeGet_insert]
        · simp [engineGet, open_tree, hn]
      · rw [if_neg h0]
        by_cases hn : n' = n0
        · subst hn
          have hne : ¬(n' = n) := fun hh => h0 hh.symm
          simp [engineGet, open_tree, hne]
        · simp only [engineGet, open_tree, if_neg hn]
          simpa only [engineGet, engineInsert] using ih

/-! ## Counter monotonicity (claim C3) -/

/-- `n` successive `increment` calls on one tree/key, collecting the returned
values in call order. -/
def incrementN (tn : String) (key : List Nat) : Nat → Engine → Option (List Nat × Engine)
  | 0, e => some ([], e)
  | n + 1, e =>
      match increment e tn key with
      | none => none
      | some (v, e1) =>
          match incrementN tn key n e1 with
          | none => none
          | some (vs, e2) => some (v :: vs, e2)

theorem increment_step (e : Engine) (tn : String) (key : List Nat) (m : Nat)
    (hget : engineGet e tn key = some (be8 m)) (hm : m + 1 < 2 ^ 64) :
    increment e tn key = some (m + 1, engineInsert e tn key (be8 (m + 1))) := by
  simp only [increment, hget, bytes_to_long_be8 m (by omega : m < 2 ^ 64)]
  rw [if_pos hm]

theorem incrementN_chain (tn : String) (key : List Nat) (j : Nat) :
    ∀ (m : Nat) (e : Engine), engineGet e tn key = some (be8 m) → m + j < 2 ^ 64 →
      ∃ e2, incrementN tn key j e = some ((List.range j).map (fun i => m + 1 + i), e2) ∧
        engineGet e2 tn key = some (be8 (m + j)) := by
  induction j with
  | zero => intro m e hget _; exact ⟨e, by simp [incrementN], by simpa using hget⟩
  | succ j ih =>
      intro m e hget hj
      have hstep := increment_step e tn key m hget (by omega)
      have hget1 : engineGet (engineInsert e tn key (be8 (m + 1))) tn key =
          some (be8 (m + 1)) := by
        rw [engineGet_insert]
        simp
      obtain ⟨e2, hrun, hend⟩ := ih (m + 1) _ hget1 (by omega)
      refine ⟨e2, ?_, by
        have : m + 1 + j = m + (j + 1) := by omega
        rw [← this]; exact hend⟩
      simp only [incrementN, hstep, hrun]
      have hlist : List.map (fun i => m + 1 + i) (List.range (j + 1)) =
          (m + 1) :: List.map (fun i => m + 1 + 1 + i) (List.range j) := by
        rw [List.range_succ_eq_map, List.map_cons, List.map_map]
        simp only [Nat.add_zero]
        congr 1
        apply List.map_congr_left
        intro i _
        simp only [Function.comp_apply]
        omega
      rw [hlist]

/-- Claim C3: for every tree name and key, `increment` starts at 0 and is
strictly increasing across successive calls: on a fresh store the first `n`
calls return `0, 1, ..., n - 1` (so three calls return 0, 1, 2), for every
`n` within the u64 counter range. -/
theorem increment_sequence_spec (tn : String) (key : List Nat) (n : Nat)
    (h : n ≤ 2 ^ 64) :
    ∃ e, incrementN tn key n freshEngine = some (List.range n, e) := by
  cases n with
  | zero => exact ⟨freshEngine, by simp [incrementN]⟩
  | succ n =>
      have hfirst : increment freshEngine tn key =
          some (0, engineInsert freshEngine tn key (be8 0)) := by
        simp [increment, engineGet, freshEngine, open_tree, treeGet]
      have hget1 : engineGet (engineInsert freshEngine tn key (be8 0)) tn key =
          some (be8 0) := by
        rw [engineGet_insert]; simp
      obtain ⟨e2, hrun, _⟩ := incrementN_chain tn key n 0 _ hget1 (by omega)
      refine ⟨e2, ?_⟩
      simp only [incrementN, hfirst, hrun]
      have hlist : List.range (n + 1) =
          0 :: List.map (fun i => 0 + 1 + i) (List.range n) := by
        rw [List.range_succ_eq_map]
        congr 1
        apply List.map_congr_left
        intro i _
        omega
      rw [hlist]

/-- Witness for C3: three calls on a fresh tree return 0, 1, 2. -/
theorem increment_sequence_witness :
    ∃ e, incrementN "t" (ascii "k") 3 freshEngine = some ([0, 1, 2], e) := by
  obtain ⟨e, he⟩ := increment_sequence_spec "t" (ascii "k") 3 (by norm_num)
  refine ⟨e, ?_⟩
  rw [he]
  rfl

/-! ## Handlers (`src/handlers/{vertex,edge}_handler.rs`) -/

/-- `VertexHandler::create_vertex`: unconditionally writes the serialized row
(an overwriting `insert`; there is no existence check). -/
def create_vertex (e : Engine) (id : List Nat) (label : Nat) : Vertex × Engine :=
  let vertex : Vertex := ⟨id, label, []⟩
  let kv := vertex.serialize
  (vertex, engineInsert e "VERTEX" kv.1 kv.2)

/-- `VertexHandler::get_vertex`. -/
def get_vertex (e : Engine) (id : List Nat) : Option Vertex :=
  match engineGet e "VERTEX" (Vertex.build_key id) with
  | some value => Vertex.deserialize_value id value
  | none => none

/-- `EdgeHandler::create_edge`: allocate a global edge id, then insert the IN
row and the OUT row with identical (empty-blob) values. -/
def create_edge (e : Engine) (src_vertex_id dst_vertex_id : List Nat) (label : Nat) :
    Option (Edge × Engine) :=
  match increment e "EDGE" (ascii "EDGE_AUTO_INCREMENT_ID") with
  | none => none
  | some (edge_id, e1) =>
      let edge : Edge := ⟨src_vertex_id, dst_vertex_id, edge_id, label, []⟩
      let out := edge.serialize .out
      let inn := edge.serialize .inn
      some (edge, engineInsert (engineInsert e1 "EDGE" inn.1 inn.2) "EDGE" out.1 out.2)

/-- `EdgeHandler::remove_edge`: delete the IN row, then the OUT row. -/
def remove_edge (e : Engine) (edge : Edge) : Engine :=
  engineRemove (engineRemove e "EDGE" (edge.generate_key .inn)) "EDGE"
    (edge.generate_key .out)

/-! ### Key injectivity and store lemmas -/

theorem putString_append_inj {s t X Y : List Nat} (hs : STRING_TERM ∉ s)
    (ht : STRING_TERM ∉ t) (h : putString s ++ X = putString t ++ Y) :
    s = t ∧ X = Y := by
  have h1 : getString (putString s ++ X) = getString (putString t ++ Y) := by rw [h]
  rw [getString_putString_append _ hs, getString_putString_append _ ht] at h1
  simpa using h1

theorem be8_append_inj {a b : Nat} {X Y : List Nat} (ha : a < 2 ^ 64)
    (hb : b < 2 ^ 64) (h : be8 a ++ X = be8 b ++ Y) : a = b ∧ X = Y := by
  have h1 : readU64 (be8 a ++ X) = readU64 (be8 b ++ Y) := by rw [h]
  rw [readU64_be8_append _ ha, readU64_be8_append _ hb] at h1
  simpa using h1

theorem edge_build_key_inj (dir : EdgeDirection) {s d s' d' : List Nat}
    {l i l' i' : Nat} (hs : STRING_TERM ∉ s) (hd : STRING_TERM ∉ d)
    (hs' : STRING_TERM ∉ s') (hd' : STRING_TERM ∉ d') (hl : l < 2 ^ 64)
    (hi : i < 2 ^ 64) (hl' : l' < 2 ^ 64) (hi' : i' < 2 ^ 64)
    (h : Edge.build_key s d l i dir = Edge.build_key s' d' l' i' dir) :
    s = s' ∧ d = d' ∧ l = l' ∧ i = i' := by
  cases dir
  · simp only [Edge.build_key, List.cons.injEq, true_and] at h
    rw [List.append_assoc, List.append_assoc, List.append_assoc,
      List.append_assoc] at h
    obtain ⟨h1, h⟩ := putString_append_inj hs hs' h
    obtain ⟨h2, h⟩ := be8_append_inj hl hl' h
    obtain ⟨h3, h⟩ := putString_append_inj hd hd' h
    have h5 : be8 i ++ ([] : List Nat) = be8 i' ++ [] := by
      rw [List.append_nil, List.append_nil]; exact h
    obtain ⟨h4, -⟩ := be8_append_inj hi hi' h5
    exact ⟨h1, h3, h2, h4⟩
  · simp only [Edge.build_key, List.cons.injEq, true_and] at h
    rw [List.append_assoc, List.append_assoc, List.append_assoc,
      List.append_assoc] at h
    obtain ⟨h1, h⟩ := putString_append_inj hd hd' h
    obtain ⟨h2, h⟩ := be8_append_inj hl hl' h
    obtain ⟨h3, h⟩ := putString_append_inj hs hs' h
    have h5 : be8 i ++ ([] : List Nat) = be8 i' ++ [] := by
      rw [List.append_nil, List.append_nil]; exact h
    obtain ⟨h4, -⟩ := be8_append_inj hi hi' h5
    exact ⟨h3, h1, h2, h4⟩

theorem edge_out_key_ne_in_key (s d s' d' : List Nat) (l i l' i' : Nat) :
    Edge.build_key s d l i .out ≠ Edge.build_key s' d' l' i' .inn := by
  simp [Edge.build_key]

theorem edge_key_ne_counter_key (s d : List Nat) (l i : Nat) (dir : EdgeDirection) :
    Edge.build_key s d l i dir ≠ ascii "EDGE_AUTO_INCREMENT_ID" := by
  have hc : ascii "EDGE_AUTO_INCREMENT_ID" =
      69 :: ascii "DGE_AUTO_INCREMENT_ID" := by decide
  cases dir <;> · rw [hc]; simp [Edge.build_key]

theorem treeGet_eq_none_iff (t : Tree) (k : List Nat) :
    treeGet t k = none ↔ k ∉ t.map Prod.fst := by
  induction t with
  | nil => simp [treeGet]
  | cons r rest ih =>
      obtain ⟨k0, v0⟩ := r
      by_cases h : k = k0 <;> simp [treeGet, h, ih]

theorem treeGet_remove_other (t : Tree) (k k' : List Nat) (h : k' ≠ k) :
    treeGet (treeRemove t k) k' = treeGet t k' := by
  induction t with
  | nil => simp [treeRemove]
  | cons r rest ih =>
      obtain ⟨k0, v0⟩ := r
      by_cases hk : k = k0
      · subst hk
        simp [treeRemove, treeGet, h, ih]
      · by_cases h0 : k' = k0 <;> simp [treeRemove, treeGet, hk, h0, ih]

theorem treeGet_remove_self (t : Tree) (k : List Nat)
    (hnd : (t.map Prod.fst).Nodup) : treeGet (treeRemove t k) k = none := by
  induction t with
  | nil => simp [treeRemove, treeGet]
  | cons r rest ih =>
      obtain ⟨k0, v0⟩ := r
      simp only [List.map_cons, List.nodup_cons] at hnd
      by_cases hk : k = k0
      · subst hk
        simp only [treeRemove, if_pos rfl]
        exact (treeGet_eq_none_iff rest k).2 hnd.1
      · simp [treeRemove, treeGet, hk, ih hnd.2]

theorem treeRemove_keys_sublist (t : Tree) (k : List Nat) :
    ((treeRemove t k).map Prod.fst).Sublist (t.map Prod.fst) := by
  induction t with
  | nil => simp [treeRemove]
  | cons r rest ih =>
      obtain ⟨k0, v0⟩ := r
      by_cases hk : k = k0
      · simp only [treeRemove, if_pos hk, List.map_cons]
        exact (List.sublist_cons_self _ _)
      · simp only [treeRemove, if_neg hk, List.map_cons]
        exact ih.cons₂ k0

theorem treeRemove_nodup (t : Tree) (k : List Nat)
    (hnd : (t.map Prod.fst).Nodup) : ((treeRemove t k).map Prod.fst).Nodup :=
  (treeRemove_keys_sublist t k).nodup hnd

theorem treeInsert_keys_mem (t : Tree) (k v x : List Nat) :
    x ∈ (treeInsert t k v).map Prod.fst ↔ x ∈ t.map Prod.fst ∨ x = k := by
  induction t with
  | nil => simp [treeInsert]
  | cons r rest ih =>
      obtain ⟨k0, v0⟩ := r
      by_cases hk : k = k0
      · subst hk
        rw [show treeInsert ((k, v0) :: rest) k v = (k, v) :: rest from by
          simp [treeInsert]]
        simp only [List.map_cons, List.mem_cons]
        tauto
      · simp only [treeInsert, if_neg hk, List.map_cons, List.mem_cons, ih]
        tauto

theorem treeInsert_nodup (t : Tree) (k v : List Nat)
    (hnd : (t.map Prod.fst).Nodup) : ((treeInsert t k v).map Prod.fst).Nodup := by
  induction t with
  | nil => simp [treeInsert]
  | cons r rest ih =>
      obtain ⟨k0, v0⟩ := r
      simp only [List.map_cons, List.nodup_cons] at hnd
      by_cases hk : k = k0
      · subst hk
        rw [show treeInsert ((k, v0) :: rest) k v = (k, v) :: rest from by
          simp [treeInsert]]
        simp only [List.map_cons, List.nodup_cons]
        exact ⟨hnd.1, hnd.2⟩
      · simp only [treeInsert, if_neg hk, List.map_cons, List.nodup_cons]
        refine ⟨?_, ih hnd.2⟩
        rw [treeInsert_keys_mem]
        rintro (h | h)
        · exact hnd.1 h
        · exact hk h.symm

theorem open_tree_engineUpdate (e : Engine) (n : String) (f : Tree → Tree)
    (n' : String) :
    open_tree (engineUpdate e n f) n' =
      if n' = n then f (open_tree e n) else open_tree e n' := by
  induction e with
  | nil =>
      by_cases hn : n' = n <;> simp [engineUpdate, open_tree, hn]
  | cons r rest ih =>
      obtain ⟨n0, t0⟩ := r
      by_cases h0 : n = n0
      · subst h0
        by_cases hn : n' = n <;> simp [engineUpdate, open_tree, hn]
      · simp only [engineUpdate, if_neg h0]
        by_cases hn : n' = n0
        · subst hn
          have hne : ¬(n' = n) := fun hh => h0 hh.symm
          simp [open_tree, hne]
        · simp only [open_tree, if_neg hn, if_neg h0]
          exact ih

/-- All trees of the engine have duplicate-free key sets (true of every sled
store, and preserved by every operation). -/
def engineKeysNodup (e : Engine) : Prop :=
  ∀ n, ((open_tree e n).map Prod.fst).Nodup

theorem engineKeysNodup_fresh : engineKeysNodup freshEngine := by
  intro n
  simp [freshEngine, open_tree]

theorem engineKeysNodup_insert (e : Engine) (n : String) (k v : List Nat)
    (h : engineKeysNodup e) : engineKeysNodup (engineInsert e n k v) := by
  intro n'
  rw [engineInsert, open_tree_engineUpdate]
  by_cases hn : n' = n
  · rw [if_pos hn]
    exact treeInsert_nodup _ _ _ (h n)
  · rw [if_neg hn]
    exact h n'

theorem engineKeysNodup_remove (e : Engine) (n : String) (k : List Nat)
    (h : engineKeysNodup e) : engineKeysNodup (engineRemove e n k) := by
  intro n'
  rw [engineRemove, open_tree_engineUpdate]
  by_cases hn : n' = n
  · rw [if_pos hn]
    exact treeRemove_nodup _ _ (h n)
  · rw [if_neg hn]
    exact h n'

theorem engineGet_remove (e : Engine) (n : String) (k : List Nat) (n' : String)
    (k' : List Nat) :
    engineGet (engineRemove e n k) n' k' =
      if n' = n then treeGet (treeRemove (open_tree e n) k) k'
      else engineGet e n' k' := by
  rw [engineGet, engineRemove, open_tree_engineUpdate]
  by_cases hn : n' = n <;> simp [hn, engineGet]

/-- Claim C10: `create_vertex(id, label)` unconditionally writes a vertex row
with the given label and an empty properties blob.  The store argument `e` is
arbitrary — in particular it may already contain a row for the same id with a
different label and non-empty properties — and the row is silently replaced
with no error or duplicate check (conjunct 4 shows nothing else changes);
`get_vertex` then returns the new label with zero properties. -/
theorem create_vertex_overwrite_spec (e : Engine) (id : List Nat) (label : Nat)
    (hl : label < 2 ^ 64) :
    (create_vertex e id label).1 = ⟨id, label, []⟩ ∧
    engineGet (create_vertex e id label).2 "VERTEX" (Vertex.build_key id) =
      some (be8 label) ∧
    get_vertex (create_vertex e id label).2 id = some ⟨id, label, []⟩ ∧
    (∀ n k, ¬(n = "VERTEX" ∧ k = Vertex.build_key id) →
      engineGet (create_vertex e id label).2 n k = engineGet e n k) := by
  have hrow : engineGet (create_vertex e id label).2 "VERTEX" (Vertex.build_key id) =
      some (be8 label ++ []) := by
    simp only [create_vertex, Vertex.serialize]
    rw [engineGet_insert, if_pos ⟨rfl, rfl⟩]
  refine ⟨rfl, ?_, ?_, ?_⟩
  · rw [hrow, List.append_nil]
  · rw [get_vertex, hrow]
    simp only [Vertex.deserialize_value, readU64_be8_append _ hl]
  · intro n k hnk
    simp only [create_vertex, Vertex.serialize]
    rw [engineGet_insert, if_neg hnk]

/-- Witness for C10: creating vertex "u1" with label 2 over a store that
already holds a "u1" row with label 7 and one property record yields label 2
and zero properties. -/
theorem create_vertex_overwrite_witness :
    get_vertex ((create_vertex
        (engineInsert freshEngine "VERTEX" (Vertex.build_key (ascii "u1"))
          (be8 7 ++ encodeRecord ⟨2, 5, 0, ascii "alice"⟩))
        (ascii "u1") 2).2) (ascii "u1") = some ⟨ascii "u1", 2, []⟩ :=
  (create_vertex_overwrite_spec _ (ascii "u1") 2 (by norm_num)).2.2.1

/-! ## Edge pair invariant (claim C1) -/

theorem increment_shape {e : Engine} {tn : String} {k : List Nat} {v : Nat}
    {e1 : Engine} (h : increment e tn k = some (v, e1)) :
    e1 = engineInsert e tn k (be8 v) ∧ v < 2 ^ 64 := by
  simp only [increment] at h
  cases hget : engineGet e tn k with
  | none =>
      rw [hget] at h
      simp only [Option.some.injEq, Prod.mk.injEq] at h
      refine ⟨?_, ?_⟩
      · rw [← h.2, ← h.1]
      · rw [← h.1]; norm_num
  | some bytes =>
      rw [hget] at h
      dsimp only at h
      cases hb : bytes_to_long bytes with
      | none => rw [hb] at h; exact absurd h (by simp)
      | some w =>
          rw [hb] at h
          dsimp only at h
          by_cases hw : w + 1 < 2 ^ 64
          · rw [if_pos hw] at h
            simp only [Option.some.injEq, Prod.mk.injEq] at h
            refine ⟨?_, ?_⟩
            · rw [← h.2, ← h.1]
            · rw [← h.1]; exact hw
          · rw [if_neg hw] at h
            exact absurd h (by simp)

theorem create_edge_shape {e : Engine} {s d : List Nat} {l : Nat} {ed : Edge}
    {e' : Engine} (h : create_edge e s d l = some (ed, e')) :
    ed.src_vertex_id = s ∧ ed.dst_vertex_id = d ∧ ed.label = l ∧
    ed.properties = [] ∧ ed.edge_id < 2 ^ 64 ∧
    e' = engineInsert
          (engineInsert (engineInsert e "EDGE" (ascii "EDGE_AUTO_INCREMENT_ID")
            (be8 ed.edge_id)) "EDGE" (Edge.build_key s d l ed.edge_id .inn) [])
          "EDGE" (Edge.build_key s d l ed.edge_id .out) [] := by
  simp only [create_edge] at h
  cases hinc : increment e "EDGE" (ascii "EDGE_AUTO_INCREMENT_ID") with
  | none => rw [hinc] at h; exact absurd h (by simp)
  | some ve1 =>
      obtain ⟨v, e1⟩ := ve1
      rw [hinc] at h
      obtain ⟨he1, hv⟩ := increment_shape hinc
      simp only [Option.some.injEq, Prod.mk.injEq] at h
      obtain ⟨hed, he'⟩ := h
      subst hed
      refine ⟨rfl, rfl, rfl, rfl, hv, ?_⟩
      rw [← he', he1]
      rfl

/-- One create/remove call against the edge handler. -/
inductive EdgeOp where
  | create (src dst : List Nat) (label : Nat)
  | remove (ed : Edge)

/-- Well-formed arguments: ids without the terminator byte, u64-ranged
numeric fields (§4.1 requires rejecting embedded terminator bytes). -/
def validOp : EdgeOp → Prop
  | .create s d l => STRING_TERM ∉ s ∧ STRING_TERM ∉ d ∧ l < 2 ^ 64
  | .remove ed => STRING_TERM ∉ ed.src_vertex_id ∧ STRING_TERM ∉ ed.dst_vertex_id ∧
      ed.label < 2 ^ 64 ∧ ed.edge_id < 2 ^ 64

def runEdgeOps : List EdgeOp → Engine → Option Engine
  | [], e => some e
  | .create s d l :: ops, e =>
      match create_edge e s d l with
      | none => none
      | some (_, e1) => runEdgeOps ops e1
  | .remove ed :: ops, e => runEdgeOps ops (remove_edge e ed)

/-- Both rows of every (well-formed) edge have the same presence and the same
value bytes. -/
def edgePairInvariant (e : Engine) : Prop :=
  ∀ s d l i, STRING_TERM ∉ s → STRING_TERM ∉ d → l < 2 ^ 64 → i < 2 ^ 64 →
    engineGet e "EDGE" (Edge.build_key s d l i .out) =
      engineGet e "EDGE" (Edge.build_key s d l i .inn)

theorem engineKeysNodup_create_edge {e : Engine} {s d : List Nat} {l : Nat}
    {ed : Edge} {e' : Engine} (h : create_edge e s d l = some (ed, e'))
    (hnd : engineKeysNodup e) : engineKeysNodup e' := by
  rw [(create_edge_shape h).2.2.2.2.2]
  exact engineKeysNodup_insert _ _ _ _
    (engineKeysNodup_insert _ _ _ _ (engineKeysNodup_insert _ _ _ _ hnd))

theorem engineKeysNodup_remove_edge (e : Engine) (ed : Edge)
    (hnd : engineKeysNodup e) : engineKeysNodup (remove_edge e ed) :=
  engineKeysNodup_remove _ _ _ (engineKeysNodup_remove _ _ _ hnd)

theorem edgePairInvariant_create {e : Engine} {s d : List Nat} {l : Nat}
    {ed : Edge} {e' : Engine} (h : create_edge e s d l = some (ed, e'))
    (hs : STRING_TERM ∉ s) (hd : STRING_TERM ∉ d) (hl : l < 2 ^ 64)
    (hinv : edgePairInvariant e) : edgePairInvariant e' := by
  obtain ⟨-, -, -, -, hlt, hshape⟩ := create_edge_shape h
  intro ps pd pl pi hps hpd hpl hpi
  have hOut : engineGet e' "EDGE" (Edge.build_key ps pd pl pi .out) =
      if Edge.build_key ps pd pl pi .out = Edge.build_key s d l ed.edge_id .out
      then some [] else engineGet e "EDGE" (Edge.build_key ps pd pl pi .out) := by
    rw [hshape, engineGet_insert]
    by_cases hc :
        Edge.build_key ps pd pl pi .out = Edge.build_key s d l ed.edge_id .out
    · rw [if_pos ⟨rfl, hc⟩, if_pos hc]
    · rw [if_neg (fun hh => hc hh.2), if_neg hc, engineGet_insert]
      rw [if_neg (fun hh =>
        edge_out_key_ne_in_key ps pd s d pl pi l ed.edge_id hh.2)]
      rw [engineGet_insert]
      rw [if_neg (fun hh => edge_key_ne_counter_key ps pd pl pi .out hh.2)]
  have hInn : engineGet e' "EDGE" (Edge.build_key ps pd pl pi .inn) =
      if Edge.build_key ps pd pl pi .inn = Edge.build_key s d l ed.edge_id .inn
      then some [] else engineGet e "EDGE" (Edge.build_key ps pd pl pi .inn) := by
    rw [hshape, engineGet_insert]
    rw [if_neg (fun hh =>
      Ne.symm (edge_out_key_ne_in_key s d ps pd l ed.edge_id pl pi) hh.2)]
    rw [engineGet_insert]
    by_cases hc :
        Edge.build_key ps pd pl pi .inn = Edge.build_key s d l ed.edge_id .inn
    · rw [if_pos ⟨rfl, hc⟩, if_pos hc]
    · rw [if_neg (fun hh => hc hh.2), if_neg hc, engineGet_insert]
      rw [if_neg (fun hh => edge_key_ne_counter_key ps pd pl pi .inn hh.2)]
  rw [hOut, hInn]
  by_cases hout :
      Edge.build_key ps pd pl pi .out = Edge.build_key s d l ed.edge_id .out
  · obtain ⟨h1, h2, h3, h4⟩ :=
      edge_build_key_inj .out hps hpd hs hd hpl hpi hl hlt hout
    rw [if_pos hout, if_pos (by rw [h1, h2, h3, h4])]
  · have hinn :
        Edge.build_key ps pd pl pi .inn ≠ Edge.build_key s d l ed.edge_id .inn := by
      intro hh
      obtain ⟨h1, h2, h3, h4⟩ :=
        edge_build_key_inj .inn hps hpd hs hd hpl hpi hl hlt hh
      exact hout (by rw [h1, h2, h3, h4])
    rw [if_neg hout, if_neg hinn]
    exact hinv ps pd pl pi hps hpd hpl hpi

theorem edgePairInvariant_remove {e : Engine} {ed : Edge}
    (hvalid : STRING_TERM ∉ ed.src_vertex_id ∧ STRING_TERM ∉ ed.dst_vertex_id ∧
      ed.label < 2 ^ 64 ∧ ed.edge_id < 2 ^ 64)
    (hnd : engineKeysNodup e) (hinv : edgePairInvariant e) :
    edgePairInvariant (remove_edge e ed) := by
  obtain ⟨hs, hd, hl, hi⟩ := hvalid
  intro ps pd pl pi hps hpd hpl hpi
  have hget : ∀ k, engineGet (remove_edge e ed) "EDGE" k =
      treeGet (treeRemove (treeRemove (open_tree e "EDGE")
        (ed.generate_key .inn)) (ed.generate_key .out)) k := by
    intro k
    rw [remove_edge, engineGet_remove, if_pos rfl, engineRemove,
      open_tree_engineUpdate, if_pos rfl]
  rw [hget, hget]
  simp only [Edge.generate_key]
  have hndr : ((treeRemove (open_tree e "EDGE")
      (Edge.build_key ed.src_vertex_id ed.dst_vertex_id ed.label ed.edge_id .inn)).map
      Prod.fst).Nodup := treeRemove_nodup _ _ (hnd "EDGE")
  by_cases hout : Edge.build_key ps pd pl pi .out =
      Edge.build_key ed.src_vertex_id ed.dst_vertex_id ed.label ed.edge_id .out
  · obtain ⟨h1, h2, h3, h4⟩ :=
      edge_build_key_inj .out hps hpd hs hd hpl hpi hl hi hout
    have hinP : Edge.build_key ps pd pl pi .inn =
        Edge.build_key ed.src_vertex_id ed.dst_vertex_id ed.label ed.edge_id .inn := by
      rw [h1, h2, h3, h4]
    rw [hout, treeGet_remove_self _ _ hndr]
    rw [treeGet_remove_other _ _ _
      (Ne.symm (edge_out_key_ne_in_key ed.src_vertex_id ed.dst_vertex_id ps pd
        ed.label ed.edge_id pl pi))]
    rw [hinP, treeGet_remove_self _ _ (hnd "EDGE")]
  · have hinn : Edge.build_key ps pd pl pi .inn ≠
        Edge.build_key ed.src_vertex_id ed.dst_vertex_id ed.label ed.edge_id .inn := by
      intro hh
      obtain ⟨h1, h2, h3, h4⟩ :=
        edge_build_key_inj .inn hps hpd hs hd hpl hpi hl hi hh
      exact hout (by rw [h1, h2, h3, h4])
    rw [treeGet_remove_other _ _ _ hout]
    rw [treeGet_remove_other _ _ _
      (edge_out_key_ne_in_key ps pd ed.src_vertex_id ed.dst_vertex_id pl pi
        ed.label ed.edge_id)]
    rw [treeGet_remove_other _ _ _
      (Ne.symm (edge_out_key_ne_in_key ed.src_vertex_id ed.dst_vertex_id ps pd
        ed.label ed.edge_id pl pi))]
    rw [treeGet_remove_other _ _ _ hinn]
    exact hinv ps pd pl pi hps hpd hpl hpi

theorem runEdgeOps_preserves (ops : List EdgeOp) :
    ∀ e, (∀ op ∈ ops, validOp op) → engineKeysNodup e → edgePairInvariant e →
      ∀ e', runEdgeOps ops e = some e' →
        engineKeysNodup e' ∧ edgePairInvariant e' := by
  induction ops with
  | nil =>
      intro e _ hnd hinv e' h
      simp only [runEdgeOps, Option.some.injEq] at h
      exact h ▸ ⟨hnd, hinv⟩
  | cons op ops ih =>
      intro e hvalid hnd hinv e' h
      have hvrest : ∀ op ∈ ops, validOp op := fun o ho => hvalid o (by simp [ho])
      cases op with
      | create s d l =>
          obtain ⟨hs, hd, hl⟩ := hvalid (.create s d l) (by simp)
          simp only [runEdgeOps] at h
          cases hc : create_edge e s d l with
          | none => rw [hc] at h; exact absurd h (by simp)
          | some p =>
              obtain ⟨ed, e1⟩ := p
              rw [hc] at h
              dsimp only at h
              exact ih e1 hvrest (engineKeysNodup_create_edge hc hnd)
                (edgePairInvariant_create hc hs hd hl hinv) e' h
      | remove ed =>
          have hv := hvalid (.remove ed) (by simp)
          simp only [runEdgeOps] at h
          exact ih (remove_edge e ed) hvrest
            (engineKeysNodup_remove_edge e ed hnd)
            (edgePairInvariant_remove hv hnd hinv) e' h

/-- Claim C1: `create_edge` writes exactly two KV rows into the EDGE tree —
one whose key begins with byte 0x06 (OUT) and one whose key begins with 0x05
(IN) — with byte-identical value payloads (conjuncts 5–8; conjunct 9 shows no
other row of the EDGE tree changes apart from the reserved
`EDGE_AUTO_INCREMENT_ID` counter row, whose key begins with the printable
byte 69, outside every entity prefix; conjunct 10 shows other trees are
untouched); `remove_edge` deletes exactly those two rows (second section);
after any sequence of create/remove calls with well-formed arguments both
rows of an edge exist or both are absent (third section); and the first
`create_edge` on a fresh store returns edge id 0 (fourth section). -/
theorem edge_pair_spec :
    (∀ e s d l ed e', create_edge e s d l = some (ed, e') →
      ed.src_vertex_id = s ∧ ed.dst_vertex_id = d ∧ ed.label = l ∧
      ed.properties = [] ∧
      (Edge.build_key s d l ed.edge_id .out).head? = some 0x06 ∧
      (Edge.build_key s d l ed.edge_id .inn).head? = some 0x05 ∧
      engineGet e' "EDGE" (Edge.build_key s d l ed.edge_id .out) =
        some ed.properties ∧
      engineGet e' "EDGE" (Edge.build_key s d l ed.edge_id .inn) =
        some ed.properties ∧
      (∀ k, k ≠ Edge.build_key s d l ed.edge_id .out →
        k ≠ Edge.build_key s d l ed.edge_id .inn →
        k ≠ ascii "EDGE_AUTO_INCREMENT_ID" →
        engineGet e' "EDGE" k = engineGet e "EDGE" k) ∧
      (∀ n k, n ≠ "EDGE" → engineGet e' n k = engineGet e n k)) ∧
    (∀ e ed, engineKeysNodup e →
      engineGet (remove_edge e ed) "EDGE"
        (Edge.build_key ed.src_vertex_id ed.dst_vertex_id ed.label ed.edge_id .out) =
        none ∧
      engineGet (remove_edge e ed) "EDGE"
        (Edge.build_key ed.src_vertex_id ed.dst_vertex_id ed.label ed.edge_id .inn) =
        none ∧
      (∀ k,
        k ≠ Edge.build_key ed.src_vertex_id ed.dst_vertex_id ed.label ed.edge_id .out →
        k ≠ Edge.build_key ed.src_vertex_id ed.dst_vertex_id ed.label ed.edge_id .inn →
        engineGet (remove_edge e ed) "EDGE" k = engineGet e "EDGE" k)) ∧
    (∀ ops e', (∀ op ∈ ops, validOp op) → runEdgeOps ops freshEngine = some e' →
      edgePairInvariant e') ∧
    (∀ s d l, ∃ e', create_edge freshEngine s d l = some (⟨s, d, 0, l, []⟩, e')) := by
  refine ⟨?_, ?_, ?_, ?_⟩
  · intro e s d l ed e' h
    obtain ⟨hs', hd', hl', hp', -, hshape⟩ := create_edge_shape h
    refine ⟨hs', hd', hl', hp', rfl, rfl, ?_, ?_, ?_, ?_⟩
    · rw [hshape, engineGet_insert, if_pos ⟨rfl, rfl⟩, hp']
    · rw [hshape, engineGet_insert]
      rw [if_neg (fun hh =>
        Ne.symm (edge_out_key_ne_in_key s d s d l ed.edge_id l ed.edge_id) hh.2)]
      rw [engineGet_insert, if_pos ⟨rfl, rfl⟩, hp']
    · intro k hko hki hkc
      rw [hshape, engineGet_insert, if_neg (fun hh => hko hh.2),
        engineGet_insert, if_neg (fun hh => hki hh.2),
        engineGet_insert, if_neg (fun hh => hkc hh.2)]
    · intro n k hn
      rw [hshape, engineGet_insert, if_neg (fun hh => hn hh.1),
        engineGet_insert, if_neg (fun hh => hn hh.1),
        engineGet_insert, if_neg (fun hh => hn hh.1)]
  · intro e ed hnd
    have hget : ∀ k, engineGet (remove_edge e ed) "EDGE" k =
        treeGet (treeRemove (treeRemove (open_tree e "EDGE")
          (Edge.build_key ed.src_vertex_id ed.dst_vertex_id ed.label ed.edge_id .inn))
          (Edge.build_key ed.src_vertex_id ed.dst_vertex_id ed.label ed.edge_id .out))
        k := by
      intro k
      rw [remove_edge, engineGet_remove, if_pos rfl, engineRemove,
        open_tree_engineUpdate, if_pos rfl]
      rfl
    refine ⟨?_, ?_, ?_⟩
    · rw [hget]
      exact treeGet_remove_self _ _ (treeRemove_nodup _ _ (hnd "EDGE"))
    · rw [hget]
      rw [treeGet_remove_other _ _ _
        (Ne.symm (edge_out_key_ne_in_key ed.src_vertex_id ed.dst_vertex_id
          ed.src_vertex_id ed.dst_vertex_id ed.label ed.edge_id ed.label ed.edge_id))]
      exact treeGet_remove_self _ _ (hnd "EDGE")
    · intro k hko hki
      rw [hget, treeGet_remove_other _ _ _ hko, treeGet_remove_other _ _ _ hki]
      rfl
  · intro ops e' hvalid hrun
    exact (runEdgeOps_preserves ops freshEngine hvalid engineKeysNodup_fresh
      (fun ps pd pl pi _ _ _ _ => rfl) e' hrun).2
  · intro s d l
    exact ⟨_, rfl⟩

/-- Witness for C1 at src "u1", dst "u2", label 3 on a fresh store. -/
theorem edge_pair_witness :
    (∃ e₁, create_edge freshEngine [117, 49] [117, 50] 3 =
      some (⟨[117, 49], [117, 50], 0, 3, []⟩, e₁)) ∧
    (∃ e₂, runEdgeOps [.create [117, 49] [117, 50] 3] freshEngine = some e₂ ∧
      edgePairInvariant e₂) ∧
    engineGet (remove_edge freshEngine ⟨[117, 49], [117, 50], 0, 3, []⟩) "EDGE"
      (Edge.build_key [117, 49] [117, 50] 3 0 .out) = none := by
  refine ⟨edge_pair_spec.2.2.2 [117, 49] [117, 50] 3, ?_, ?_⟩
  · have hrun : ∃ x, runEdgeOps [.create [117, 49] [117, 50] 3] freshEngine =
        some x := ⟨_, rfl⟩
    obtain ⟨e₂, h⟩ := hrun
    refine ⟨e₂, h, edge_pair_spec.2.2.1 _ _ ?_ h⟩
    intro op hop
    simp only [List.mem_singleton] at hop
    subst hop
    exact ⟨by decide, by decide, by norm_num⟩
  · exact (edge_pair_spec.2.1 freshEngine ⟨[117, 49], [117, 50], 0, 3, []⟩
      (fun n => by simp [freshEngine, open_tree])).1

/-! ## AST (`src/parser/ast.rs`, `src/parser/operator.rs`)

Identifiers and string literals at this layer are Lean `String`s (the
scope/planner never look at their bytes).  `LabelExpr`/`IdExpr` carry the
element name, as consumed by `scope.rs`. -/

inductive UnaryOperator where
  | plus | minus | not
  deriving DecidableEq, Repr

inductive BinaryOperator where
  | plus | minus | multiply | divide | modulus
  | gt | lt | gte | lte | eq | notEq | and | or | like
  deriving DecidableEq, Repr

inductive LitValue where
  | number (s : String)
  | str (s : String)
  | boolean (b : Bool)
  | null
  deriving DecidableEq, Repr

inductive Expr where
  | value (v : LitValue)
  | identifier (s : String)
  | compoundIdentifier (ids : List String)
  | wildcard
  | compoundWildcard (ids : List String)
  | func (funcName : String) (arguments : List Expr)
  | unaryOp (op : UnaryOperator) (expr : Expr)
  | binaryOp (op : BinaryOperator) (left right : Expr)
  | nested (e : Expr)
  | labelExpr (name : String)
  | idExpr (name : String)

/-- A graph-pattern triplet `(src, edge, dst)` (`GraphTriplet`). -/
structure GraphPattern where
  triplets : List (Expr × Expr × Expr)

/-! ## Scope analyzer (`src/execution/scope.rs`) -/

inductive Comparator where
  | eq (v : Expr)
  | gte (v : Expr)
  | lte (v : Expr)

structure VertexPattern where
  name : String
  label : Option String
  id : List Comparator
  predicates : List Expr
  projections : List Expr

def VertexPattern.new (name : String) : VertexPattern :=
  ⟨name, none, [], [], []⟩

structure EdgePattern where
  name : String
  label : Option String
  srcName : String
  dstName : String
  predicates : List Expr
  projections : List Expr
  num : Nat × Nat

structure Scope where
  vertices : List (String × VertexPattern)
  edges : List (String × EdgePattern)
  conditions : List Expr
  selectItems : List Expr
  paths : List (String × String × String)

def Scope.new : Scope := ⟨[], [], [], [], []⟩

/-- Association-list model of `HashMap`: `get`. -/
def assocGet {α : Type} : List (String × α) → String → Option α
  | [], _ => none
  | (k, v) :: rest, key => if key = k then some v else assocGet rest key

/-- Association-list model of `HashMap`: `insert` replaces in place. -/
def assocInsert {α : Type} : List (String × α) → String → α → List (String × α)
  | [], key, value => [(key, value)]
  | (k, v) :: rest, key, value =>
      if key = k then (key, value) :: rest else (k, v) :: assocInsert rest key value

/-- `Scope::parse_graph_pattern`: register the vertex, edge and path entries
of each triplet; `none` models the panics on non-identifier pattern parts. -/
def parseGraphPattern : Scope → List (Expr × Expr × Expr) → Option Scope
  | sc, [] => some sc
  | sc, (src, edge, dst) :: rest =>
      match src with
      | .identifier s =>
          let sc1 := { sc with vertices := assocInsert sc.vertices s (VertexPattern.new s) }
          match dst with
          | .identifier d =>
              let sc2 := { sc1 with
                vertices := assocInsert sc1.vertices d (VertexPattern.new d) }
              match edge with
              | .identifier en =>
                  parseGraphPattern
                    { sc2 with
                      edges := assocInsert sc2.edges en ⟨en, none, s, d, [], [], (0, 0)⟩,
                      paths := sc2.paths ++ [(s, en, d)] }
                    rest
              | _ => none
          | _ => none
      | _ => none

def Scope.isGraphElement (sc : Scope) (name : String) : Bool :=
  (assocGet sc.vertices name).isSome || (assocGet sc.edges name).isSome

mutual

/-- `Scope::collect_elements_in_graph`: the graph-element names referenced by
an expression, in visit order; `none` models the panics on malformed
identifiers or unknown elements. -/
def collectElements (sc : Scope) : Expr → Option (List String)
  | .identifier _ => some []
  | .value _ => some []
  | .compoundIdentifier ids =>
      match ids with
      | [a, _] => if sc.isGraphElement a then some [a] else none
      | _ => none
  | .wildcard => some []
  | .compoundWildcard ids =>
      match ids with
      | [a] => if sc.isGraphElement a then some [a] else none
      | _ => none
  | .func _ args => collectElementsList sc args
  | .unaryOp _ e => collectElements sc e
  | .binaryOp _ l r =>
      match collectElements sc l, collectElements sc r with
      | some el, some er => some (el ++ er)
      | _, _ => none
  | .nested e => collectElements sc e
  | .labelExpr nm => if sc.isGraphElement nm then some [nm] else none
  | .idExpr nm => if sc.isGraphElement nm then some [nm] else none

def collectElementsList (sc : Scope) : List Expr → Option (List String)
  | [] => some []
  | e :: es =>
      match collectElements sc e, collectElementsList sc es with
      | some el, some er => some (el ++ er)
      | _, _ => none

end

/-- `Scope::push_conditions_into_scope`: a leaf referencing exactly one
element is attached to that element's predicate list; otherwise it becomes a
top-level residual condition. -/
def pushConditionsIntoScope (sc : Scope) (condition : Expr) : Option Scope :=
  match collectElements sc condition with
  | none => none
  | some elements =>
      match elements with
      | [en] =>
          match assocGet sc.vertices en with
          | some vp =>
              let vp2 := { vp with predicates := vp.predicates ++ [condition] }
              some { sc with vertices := assocInsert sc.vertices en vp2 }
          | none =>
              match assocGet sc.edges en with
              | some ep =>
                  let ep2 := { ep with predicates := ep.predicates ++ [condition] }
                  some { sc with edges := assocInsert sc.edges en ep2 }
              | none => none
      | _ => some { sc with conditions := sc.conditions ++ [condition] }

/-- `Scope::parse_condition`.  `none` models the panics (`comp.unwrap()` on
an operator without a comparator, unknown element, unknown condition). -/
def parseCondition (sc : Scope) : Expr → Option Scope
  | .func fn args => pushConditionsIntoScope sc (.func fn args)
  | .unaryOp op e => pushConditionsIntoScope sc (.unaryOp op e)
  | .binaryOp op left right =>
      if op = .and ∨ op = .or then
        match parseCondition sc left with
        | none => none
        | some sc1 => parseCondition sc1 right
      else
        let info : Option String × String × String :=
          match left, right with
          | .labelExpr name, .value (.str v) => (some "label", name, v)
          | .value (.str v), .labelExpr name => (some "label", name, v)
          | .idExpr name, .value (.str v) => (some "id", name, v)
          | .value (.str v), .idExpr name => (some "id", name, v)
          | _, _ => (none, "", "")
        let exprType := info.1
        let elementName := info.2.1
        let v := info.2.2
        let compNeq : Option Comparator × List Expr :=
          match op with
          | .eq => (some (.eq (.value (.str v))), [])
          | .gt => (some (.gte (.value (.str v))), [.value (.str v)])
          | .lt => (some (.lte (.value (.str v))), [.value (.str v)])
          | .gte => (some (.gte (.value (.str v))), [])
          | .lte => (some (.lte (.value (.str v))), [])
          | _ => (none, [])
        let comp := compNeq.1
        let neq := compNeq.2
        if exprType = some "label" then
          match comp with
          | some (.eq (.value (.str value))) =>
              match assocGet sc.vertices elementName with
              | some vp =>
                  let vp2 := { vp with label := some value }
                  some { sc with vertices := assocInsert sc.vertices elementName vp2 }
              | none =>
                  match assocGet sc.edges elementName with
                  | some ep =>
                      let ep2 := { ep with label := some value }
                      some { sc with edges := assocInsert sc.edges elementName ep2 }
                  | none => none
          | _ => pushConditionsIntoScope sc (.binaryOp op left right)
        else if exprType = some "id" then
          match assocGet sc.vertices elementName with
          | some vp =>
              match comp with
              | none => none
              | some c =>
                  let vp2 := { vp with id := vp.id ++ [c] }
                  let sc1 := { sc with
                    vertices := assocInsert sc.vertices elementName vp2 }
                  if neq.isEmpty then some sc1
                  else
                    pushConditionsIntoScope sc1
                      (.unaryOp .not (.func "in" (.idExpr elementName :: neq)))
          | none => none
        else pushConditionsIntoScope sc (.binaryOp op left right)
  | .nested e => parseCondition sc e
  | _ => none

/-- `Scope::parse_select_query`. -/
def parseSelectQuery (items : List Expr) (gp : GraphPattern)
    (condition : Option Expr) : Option Scope :=
  match parseGraphPattern Scope.new gp.triplets with
  | none => none
  | some sc1 =>
      match condition with
      | some cond =>
          match parseCondition sc1 cond with
          | none => none
          | some sc2 => some { sc2 with selectItems := sc2.selectItems ++ items }
      | none => some { sc1 with selectItems := sc1.selectItems ++ items }

/-! ## Physical operators and planner (`src/execution/{operator,planner}.rs`) -/

inductive Operator where
  | vertexFullScan (elementName : String)
  | vertexIdRangeScan (elementName : String) (range : Option Expr × Option Expr)
  | vertexLookup (elementName : String) (vertexId : Expr)
  | outEdgeSeqScan (elementName : String) (edgeLabel : Option Expr) (src : Option Expr)
  | inEdgeSeqScan (elementName : String) (edgeLabel : Option Expr) (dst : Option Expr)
  | outEdgeLookup (elementName : String) (edgeLabel : Expr) (src dst : Expr)
  | inEdgeLookup (elementName : String) (edgeLabel : Expr) (src dst : Expr)
  | predicateFilter (source : Operator) (predicates : List Expr)
  | projection (source : Operator) (items : List Expr)
  | simplePathJoin (operators : List Operator)

/-- The comparator loop of the multi-comparator branch of
`Planner::build_vertex_pattern`: partition into the `min_values` (Gte) and
`max_values` (Lte) lists in iteration order; `none` models the
`panic!("invalid Equal operator")` on an `Eq` comparator. -/
def collectMinMax : List Comparator → Option (List Expr × List Expr)
  | [] => some ([], [])
  | .eq _ :: _ => none
  | .gte v :: rest =>
      match collectMinMax rest with
      | some (mins, maxs) => some (v :: mins, maxs)
      | none => none
  | .lte v :: rest =>
      match collectMinMax rest with
      | some (mins, maxs) => some (mins, v :: maxs)
      | none => none

/-- The id-comparator dispatch of `Planner::build_vertex_pattern` (the value
of its local `op` before label/predicate/projection wrapping). -/
def vertexScanOp (name : String) : List Comparator → Option Operator
  | [] => some (.vertexFullScan name)
  | [c] =>
      match c with
      | .eq v => some (.vertexLookup name v)
      | .gte v => some (.vertexIdRangeScan name (some v, none))
      | .lte v => some (.vertexIdRangeScan name (none, some v))
  | c1 :: c2 :: rest =>
      match collectMinMax (c1 :: c2 :: rest) with
      | none => none
      | some (minVals, maxVals) =>
          some (.vertexIdRangeScan name
            (some (.func "min" minVals), some (.func "max" maxVals)))

/-- `Planner::build_vertex_pattern`. -/
def build_vertex_pattern (v : VertexPattern) : Option Operator :=
  match vertexScanOp v.name v.id with
  | none => none
  | some op0 =>
      let labelPreds : List Expr :=
        match v.label with
        | some lbl => [.binaryOp .eq (.labelExpr v.name) (.value (.str lbl))]
        | none => []
      let predicates := labelPreds ++ v.predicates
      let op1 := if predicates.isEmpty then op0 else .predicateFilter op0 predicates
      some (if v.projections.isEmpty then op1 else .projection op1 v.projections)

/-- `Planner::build_edge_pattern`. -/
def build_edge_pattern (ep : EdgePattern) : Operator :=
  let edgeLabel := ep.label.map (fun lbl => Expr.value (.str lbl))
  let op0 := Operator.outEdgeSeqScan ep.name edgeLabel (some (.identifier ep.srcName))
  let op1 := if ep.predicates.isEmpty then op0 else .predicateFilter op0 ep.predicates
  if ep.projections.isEmpty then op1 else .projection op1 ep.projections

/-- The triplet loop of `Planner::build_select_query`: lower each element at
most once (the `elements` set), in path order; the destination either gets
the implicit `dst.id = edge.dst` equality comparator (empty id list) or an
extra linking predicate. -/
def buildPathOps (sc : Scope) :
    List (String × String × String) → List String → List Operator →
      Option (List Operator)
  | [], _, ops => some ops
  | (src, edge, dst) :: rest, elements, ops =>
      match assocGet sc.vertices src with
      | none => none
      | some srcPat =>
          match (if elements.contains src then some (ops, elements)
                 else
                   match build_vertex_pattern srcPat with
                   | none => none
                   | some o => some (ops ++ [o], elements ++ [src])) with
          | none => none
          | some (ops1, elements1) =>
              match assocGet sc.edges edge with
              | none => none
              | some edgePat =>
                  let step2 :=
                    if elements1.contains edge then (ops1, elements1)
                    else (ops1 ++ [build_edge_pattern edgePat], elements1 ++ [edge])
                  match assocGet sc.vertices dst with
                  | none => none
                  | some dstPat0 =>
                      let dstPat :=
                        match dstPat0.id with
                        | [] => { dstPat0 with
                            id := [.eq (.compoundIdentifier [edgePat.name, "dst"])] }
                        | _ => { dstPat0 with
                            predicates := dstPat0.predicates ++
                              [.binaryOp .eq (.idExpr dstPat0.name)
                                (.compoundIdentifier [edgePat.name, "dst"])] }
                      match (if step2.2.contains dst then some (step2.1, step2.2)
                             else
                               match build_vertex_pattern dstPat with
                               | none => none
                               | some o =>
                                   some (step2.1 ++ [o], step2.2 ++ [dst])) with
                      | none => none
                      | some (ops3, elements3) => buildPathOps sc rest elements3 ops3

/-- The tail of `Planner::build_select_query`: compose the path operators,
wrap with `PredicateFilter` when a WHERE condition is present, then with the
final `Projection`. -/
def finishPlan (op : Operator) (condition : Option Expr) (items : List Expr) :
    Operator :=
  let op1 :=
    match condition with
    | some expr => Operator.predicateFilter op [expr]
    | none => op
  Operator.projection op1 items

/-- `Planner::build_select_query`.  `none` models the panics (scope analysis
failures, an empty path list). -/
def build_select_query (items : List Expr) (gp : GraphPattern)
    (condition : Option Expr) : Option Operator :=
  match parseSelectQuery items gp condition with
  | none => none
  | some sc =>
      match buildPathOps sc sc.paths [] [] with
      | none => none
      | some pathOps =>
          match pathOps with
          | [] => none
          | [op] => some (finishPlan op condition items)
          | ops => some (finishPlan (.simplePathJoin ops) condition items)

/-! ## Executor dispatch for schema DDL (`src/execution/executor.rs`,
`src/handlers/schema_handler.rs`) -/

/-- One cell of a result row: the executor prints ids with `to_string` (kept
as the number itself) and copies string cells verbatim. -/
inductive Cell where
  | num (n : Nat)
  | str (s : List Nat)
  deriving DecidableEq, Repr

/-- `SchemaHandler::create_vertex_label`: allocate the next schema id from
the `SCHEMA_ID` counter and insert the serialized `VertexLabel` row. -/
def create_vertex_label (e : Engine) (name : List Nat) : Option (Nat × Engine) :=
  match increment e "SCHEMA" (ascii "SCHEMA_ID") with
  | none => none
  | some (id, e1) =>
      some (id, engineInsert e1 "SCHEMA" (VertexLabel.build_key id) (putString name))

/-- `QueryExecutor::execute_statement` on `CREATE VERTEX LABEL <name>`:
returns the single row `(id, name, "CREATED")`. -/
def execute_create_vertex_label (e : Engine) (name : List Nat) :
    Option (List (List Cell) × Engine) :=
  match create_vertex_label e name with
  | none => none
  | some (id, e1) =>
      some ([[Cell.num id, Cell.str name, Cell.str (ascii "CREATED")]], e1)

/-- `SchemaHandler::get_vertex_labels`: scan the VertexLabel prefix of the
SCHEMA tree (key order) and deserialize each row. -/
def get_vertex_labels (e : Engine) : Option (List VertexLabel) :=
  (prefixScan (open_tree e "SCHEMA") [0x01]).mapM
    (fun kv => VertexLabel.deserialize kv.1 kv.2)

/-- `QueryExecutor::execute_statement` on `SHOW VERTEX LABEL`: one row
`(id, name)` per stored vertex label. -/
def execute_show_vertex_labels (e : Engine) : Option (List (List Cell)) :=
  match get_vertex_labels e with
  | none => none
  | some labels => some (labels.map (fun l => [Cell.num l.id, Cell.str l.name]))

/-! ## Claim C7: ID-comparator decomposition in the scope analyzer -/

theorem assocGet_insert {α : Type} (l : List (String × α)) (k : String) (v : α)
    (k' : String) :
    assocGet (assocInsert l k v) k' = if k' = k then some v else assocGet l k' := by
  induction l with
  | nil => simp [assocInsert, assocGet]
  | cons r rest ih =>
      obtain ⟨k0, v0⟩ := r
      simp only [assocInsert]
      by_cases hk : k = k0
      · subst hk
        simp only [if_pos rfl, assocGet]
        by_cases h : k' = k <;> simp [h]
      · rw [if_neg hk]
        simp only [assocGet]
        by_cases h : k' = k0
        · subst h
          have hne : ¬(k' = k) := fun hh => hk hh.symm
          rw [if_pos rfl, if_neg hne, if_pos rfl]
        · rw [if_neg h, ih]
          by_cases hkk : k' = k
          · rw [if_pos hkk, if_pos hkk]
          · rw [if_neg hkk, if_neg hkk, if_neg h]

theorem assocInsert_insert {α : Type} (l : List (String × α)) (k : String)
    (a b : α) : assocInsert (assocInsert l k a) k b = assocInsert l k b := by
  induction l with
  | nil => simp [assocInsert]
  | cons r rest ih =>
      obtain ⟨k0, v0⟩ := r
      by_cases hk : k = k0
      · subst hk
        simp [assocInsert]
      · simp [assocInsert, hk, ih]

/-- The scope with vertex pattern `vp` stored under name `en`. -/
def scopeWithVertex (sc : Scope) (en : String) (vp : VertexPattern) : Scope :=
  { sc with vertices := assocInsert sc.vertices en vp }

/-- Claim C7: for a WHERE leaf `IdExpr(e) OP string-literal` with `e` a
vertex element of the scope, `parse_condition` appends the corresponding ID
comparator for `Eq`/`Gte`/`Lte`; strict `Gt` appends `Gte(v)` plus the
residual predicate `NOT in(e.id, v)` on the element; strict `Lt`
symmetrically appends `Lte(v)` plus the same residual. -/
theorem id_comparator_decomposition_spec (sc : Scope) (en v : String)
    (vp : VertexPattern) (h : assocGet sc.vertices en = some vp) :
    parseCondition sc (.binaryOp .eq (.idExpr en) (.value (.str v))) =
      some (scopeWithVertex sc en
              { vp with id := vp.id ++ [.eq (.value (.str v))] }) ∧
    parseCondition sc (.binaryOp .gte (.idExpr en) (.value (.str v))) =
      some (scopeWithVertex sc en
              { vp with id := vp.id ++ [.gte (.value (.str v))] }) ∧
    parseCondition sc (.binaryOp .lte (.idExpr en) (.value (.str v))) =
      some (scopeWithVertex sc en
              { vp with id := vp.id ++ [.lte (.value (.str v))] }) ∧
    parseCondition sc (.binaryOp .gt (.idExpr en) (.value (.str v))) =
      some (scopeWithVertex sc en
              { vp with
                id := vp.id ++ [.gte (.value (.str v))],
                predicates := vp.predicates ++
                  [.unaryOp .not (.func "in" [.idExpr en, .value (.str v)])] }) ∧
    parseCondition sc (.binaryOp .lt (.idExpr en) (.value (.str v))) =
      some (scopeWithVertex sc en
              { vp with
                id := vp.id ++ [.lte (.value (.str v))],
                predicates := vp.predicates ++
                  [.unaryOp .not (.func "in" [.idExpr en, .value (.str v)])] }) := by
  have hpush : ∀ (vp2 : VertexPattern),
      pushConditionsIntoScope
        (Scope.mk (assocInsert sc.vertices en vp2) sc.edges sc.conditions
          sc.selectItems sc.paths)
        (.unaryOp .not (.func "in" [.idExpr en, .value (.str v)])) =
      some (Scope.mk
        (assocInsert sc.vertices en
          (VertexPattern.mk vp2.name vp2.label vp2.id
            (vp2.predicates ++
              [.unaryOp .not (.func "in" [.idExpr en, .value (.str v)])])
            vp2.projections))
        sc.edges sc.conditions sc.selectItems sc.paths) := by
    intro vp2
    have hg : assocGet (assocInsert sc.vertices en vp2) en = some vp2 := by
      rw [assocGet_insert, if_pos rfl]
    simp only [pushConditionsIntoScope, collectElements, collectElementsList,
      Scope.isGraphElement, scopeWithVertex, hg, Option.isSome_some, Bool.true_or,
      if_true, List.append_nil, List.nil_append]
    rw [assocInsert_insert]
  refine ⟨?_, ?_, ?_, ?_, ?_⟩ <;>
  · simp only [parseCondition, h]
    simp [scopeWithVertex, hpush]

/-- Witness for C7 on a scope holding the single vertex "a". -/
theorem id_comparator_decomposition_witness :
    parseCondition { Scope.new with vertices := [("a", VertexPattern.new "a")] }
      (.binaryOp .gt (.idExpr "a") (.value (.str "k"))) =
    some { Scope.new with vertices := [("a",
      { VertexPattern.new "a" with
        id := [.gte (.value (.str "k"))],
        predicates := [.unaryOp .not (.func "in" [.idExpr "a", .value (.str "k")])] })] } := by
  have h := (id_comparator_decomposition_spec
    { Scope.new with vertices := [("a", VertexPattern.new "a")] } "a" "k"
    (VertexPattern.new "a") rfl).2.2.2.1
  rw [h]
  rfl

/-! ## Claim C8: vertex lowering from ID comparators -/

def gteVals (cs : List Comparator) : List Expr :=
  cs.filterMap fun c => match c with | .gte v => some v | _ => none

def lteVals (cs : List Comparator) : List Expr :=
  cs.filterMap fun c => match c with | .lte v => some v | _ => none

theorem collectMinMax_eq_free (cs : List Comparator)
    (h : ∀ w, Comparator.eq w ∉ cs) :
    collectMinMax cs = some (gteVals cs, lteVals cs) := by
  induction cs with
  | nil => rfl
  | cons c rest ih =>
      have hrest : ∀ w, Comparator.eq w ∉ rest := by
        intro w hw
        exact h w (List.mem_cons_of_mem _ hw)
      cases c with
      | eq w => exact absurd (List.mem_cons_self _ _) (h w)
      | gte w =>
          simp only [collectMinMax, ih hrest, gteVals, lteVals, List.filterMap_cons]
      | lte w =>
          simp only [collectMinMax, ih hrest, gteVals, lteVals, List.filterMap_cons]

/-- Counterexample for C8 as frozen: a two-element comparator list containing
an `Eq` makes the lowering abort (`panic!("invalid Equal operator")`, modelled
as `none`) instead of producing a `VertexIdRangeScan`. -/
theorem vertex_lowering_multi_eq_counterexample :
    vertexScanOp "a" [.eq (.value (.str "x")), .gte (.value (.str "y"))] = none ∧
    ∀ lo hi,
      vertexScanOp "a" [.eq (.value (.str "x")), .gte (.value (.str "y"))] ≠
        some (.vertexIdRangeScan "a" (lo, hi)) :=
  ⟨rfl, fun _ _ h => Option.noConfusion h⟩

/-- Claim C8 (amended): the vertex lowering maps the ID-comparator list to an
operator as follows — empty: `VertexFullScan`; single `Eq(v)`:
`VertexLookup{v}`; single `Gte(v)`/`Lte(v)`: half-bounded
`VertexIdRangeScan`; two or more comparators none of which is `Eq`: a
`VertexIdRangeScan` whose bounds are `min(...)` over all Gte values and
`max(...)` over all Lte values (a list of two or more containing an `Eq`
aborts, see the counterexample).  The last conjunct ties this local dispatch
to `build_vertex_pattern` itself. -/
theorem vertex_lowering_amended (name : String) (v : Expr) (cs : List Comparator)
    (h2 : 2 ≤ cs.length) (hne : ∀ w, Comparator.eq w ∉ cs) :
    vertexScanOp name [] = some (.vertexFullScan name) ∧
    vertexScanOp name [.eq v] = some (.vertexLookup name v) ∧
    vertexScanOp name [.gte v] = some (.vertexIdRangeScan name (some v, none)) ∧
    vertexScanOp name [.lte v] = some (.vertexIdRangeScan name (none, some v)) ∧
    vertexScanOp name cs = some (.vertexIdRangeScan name
      (some (.func "min" (gteVals cs)), some (.func "max" (lteVals cs)))) ∧
    (∀ ids, build_vertex_pattern ⟨name, none, ids, [], []⟩ = vertexScanOp name ids) := by
  refine ⟨rfl, rfl, rfl, rfl, ?_, ?_⟩
  · match cs, h2 with
    | c1 :: c2 :: rest, _ =>
        simp only [vertexScanOp, collectMinMax_eq_free _ hne]
  · intro ids
    cases hv : vertexScanOp name ids with
    | none => simp [build_vertex_pattern, hv]
    | some op0 => simp [build_vertex_pattern, hv]

/-- Witness for C8 (amended) at comparators `[Gte 'x', Lte 'y']`. -/
theorem vertex_lowering_witness :
    vertexScanOp "a" [.gte (.value (.str "x")), .lte (.value (.str "y"))] =
      some (.vertexIdRangeScan "a"
        (some (.func "min" [.value (.str "x")]),
         some (.func "max" [.value (.str "y")]))) := by
  have h := (vertex_lowering_amended "a" (.value (.str "x"))
    [.gte (.value (.str "x")), .lte (.value (.str "y"))] (by norm_num)
    (by intro w hw; simp at hw)).2.2.2.2.1
  exact h

/-! ## Claim C9: final composition of the planner

The example query `SELECT a.label, b.prop FROM (a) -[e]-> (b)
WHERE a.label='person' AND b.id > 'k'` (AST exactly as produced by the Pratt
parser of `src/parser/parser.rs`). -/

def demoItems : List Expr := [.labelExpr "a", .compoundIdentifier ["b", "prop"]]

def demoPattern : GraphPattern :=
  ⟨[(.identifier "a", .identifier "e", .identifier "b")]⟩

def demoCondition : Expr :=
  .binaryOp .and
    (.binaryOp .eq (.labelExpr "a") (.value (.str "person")))
    (.binaryOp .gt (.idExpr "b") (.value (.str "k")))

/-- The path join the planner produces for the example query. -/
def demoJoin : Operator :=
  .simplePathJoin
    [.predicateFilter (.vertexFullScan "a")
       [.binaryOp .eq (.labelExpr "a") (.value (.str "person"))],
     .outEdgeSeqScan "e" none (some (.identifier "a")),
     .predicateFilter (.vertexIdRangeScan "b" (some (.value (.str "k")), none))
       [.unaryOp .not (.func "in" [.idExpr "b", .value (.str "k")]),
        .binaryOp .eq (.idExpr "b") (.compoundIdentifier ["e", "dst"])]]

/-- Counterexample for C9 as frozen: for the example query — whose WHERE
fully decomposes onto single elements — the plan still interposes a
`PredicateFilter` (holding the entire original WHERE expression) between the
final `Projection` and the `SimplePathJoin`; the plan is never a `Projection`
directly over a `SimplePathJoin`. -/
theorem planner_residual_filter_counterexample :
    build_select_query demoItems demoPattern (some demoCondition) =
      some (.projection (.predicateFilter demoJoin [demoCondition]) demoItems) ∧
    ∀ ops, build_select_query demoItems demoPattern (some demoCondition) ≠
      some (.projection (.simplePathJoin ops) demoItems) := by
  refine ⟨rfl, fun ops h => ?_⟩
  rw [show build_select_query demoItems demoPattern (some demoCondition) =
    some (.projection (.predicateFilter demoJoin [demoCondition]) demoItems)
    from rfl] at h
  injection h with h1
  injection h1 with hsrc _
  exact Operator.noConfusion hsrc

/-- Claim C9 (amended): whenever a WHERE condition is present at all —
residual or fully decomposed — the planner wraps the composed path operator
in a `PredicateFilter` holding the entire original condition, and the final
`Projection` wraps everything; with no WHERE clause only the `Projection`
wraps the path.  For the example query the plan is the `Projection` over
`PredicateFilter([whole WHERE])` over the `SimplePathJoin` of the three
element operators with their element-local filters. -/
theorem planner_filter_amended :
    (∀ items gp c op, build_select_query items gp (some c) = some op →
      ∃ inner, op = .projection (.predicateFilter inner [c]) items) ∧
    (∀ items gp op, build_select_query items gp none = some op →
      ∃ inner, op = .projection inner items) ∧
    build_select_query demoItems demoPattern (some demoCondition) =
      some (.projection (.predicateFilter demoJoin [demoCondition]) demoItems) := by
  refine ⟨?_, ?_, rfl⟩
  · intro items gp c op h
    simp only [build_select_query] at h
    cases hps : parseSelectQuery items gp (some c) with
    | none => rw [hps] at h; exact absurd h (by simp)
    | some sc =>
        rw [hps] at h
        dsimp only at h
        cases hpo : buildPathOps sc sc.paths [] [] with
        | none => rw [hpo] at h; exact absurd h (by simp)
        | some pathOps =>
            rw [hpo] at h
            dsimp only at h
            cases pathOps with
            | nil => exact absurd h (by simp)
            | cons p1 ps =>
                cases ps with
                | nil => exact ⟨p1, (Option.some.inj h).symm⟩
                | cons p2 ps2 =>
                    exact ⟨.simplePathJoin (p1 :: p2 :: ps2), (Option.some.inj h).symm⟩
  · intro items gp op h
    simp only [build_select_query] at h
    cases hps : parseSelectQuery items gp none with
    | none => rw [hps] at h; exact absurd h (by simp)
    | some sc =>
        rw [hps] at h
        dsimp only at h
        cases hpo : buildPathOps sc sc.paths [] [] with
        | none => rw [hpo] at h; exact absurd h (by simp)
        | some pathOps =>
            rw [hpo] at h
            dsimp only at h
            cases pathOps with
            | nil => exact absurd h (by simp)
            | cons p1 ps =>
                cases ps with
                | nil => exact ⟨p1, (Option.some.inj h).symm⟩
                | cons p2 ps2 =>
                    exact ⟨.simplePathJoin (p1 :: p2 :: ps2), (Option.some.inj h).symm⟩

/-- Witness for C9 (amended), discharging its hypotheses on the example
query. -/
theorem planner_filter_witness :
    ∃ inner,
      Operator.projection (.predicateFilter demoJoin [demoCondition]) demoItems =
        .projection (.predicateFilter inner [demoCondition]) demoItems := by
  exact planner_filter_amended.1 demoItems demoPattern demoCondition
    (.projection (.predicateFilter demoJoin [demoCondition]) demoItems) rfl

/-! ## Claim C2: CREATE VERTEX LABEL on a fresh engine -/

/-- The engine state after `CREATE VERTEX LABEL person` on a fresh engine:
the SCHEMA tree holds the `SCHEMA_ID` counter row (now 0) and the label row
for id 0. -/
def demoEngine1 : Engine :=
  engineInsert (engineInsert freshEngine "SCHEMA" (ascii "SCHEMA_ID") (be8 0))
    "SCHEMA" (VertexLabel.build_key 0) (putString (ascii "person"))

/-- Counterexample for C2 as frozen: on a fresh engine the first
`CREATE VERTEX LABEL person` returns the row `("0", "person", "CREATED")` —
the schema-id counter starts at 0, not 1 — so the claimed row
`("1", "person", "CREATED")` is not returned. -/
theorem create_vertex_label_first_id_counterexample :
    execute_create_vertex_label freshEngine (ascii "person") =
      some ([[Cell.num 0, Cell.str (ascii "person"), Cell.str (ascii "CREATED")]],
        demoEngine1) ∧
    ∀ rows e, execute_create_vertex_label freshEngine (ascii "person") =
        some (rows, e) →
      rows ≠ [[Cell.num 1, Cell.str (ascii "person"), Cell.str (ascii "CREATED")]] := by
  have hc : execute_create_vertex_label freshEngine (ascii "person") =
      some ([[Cell.num 0, Cell.str (ascii "person"), Cell.str (ascii "CREATED")]],
        demoEngine1) := rfl
  refine ⟨hc, ?_⟩
  intro rows e h
  rw [hc] at h
  injection h with h1
  injection h1 with hrow _
  rw [← hrow]
  decide

/-- Claim C2 (amended): on a freshly created engine, `CREATE VERTEX LABEL
person` returns the single row `("0", "person", "CREATED")` (ids start at 0),
and a subsequent `SHOW VERTEX LABEL` returns exactly one row, with id 0 and
name "person". -/
theorem create_vertex_label_first_id_amended :
    execute_create_vertex_label freshEngine (ascii "person") =
      some ([[Cell.num 0, Cell.str (ascii "person"), Cell.str (ascii "CREATED")]],
        demoEngine1) ∧
    execute_show_vertex_labels demoEngine1 =
      some [[Cell.num 0, Cell.str (ascii "person")]] :=
  ⟨rfl, rfl⟩

end Angelina
